import Mathlib

/-
Verification development for the ElectricityLCI record-combination and
flow-mapping pipeline.

The development shallowly embeds two source modules:

  electricitylci/olca_jsonld_writer.py  (interchange serializer)
  electricitylci/combinator.py          (key-fill resolver, upstream flow
                                         mapper, plant and upstream combiner)

Modelling conventions:

  Python strings are lists of Unicode code points (Str, a list of naturals);
  the Python methods lower, strip, rstrip, split and join are defined over
  that representation with their ASCII semantics (the data handled by the
  pipeline is ASCII).

  A pandas DataFrame is a list of column names plus a list of rows; a row is
  an association list from column name to an optional value (a missing entry
  or a stored none both denote NaN).  Cell values are strings or rationals
  (floats are modelled as exact rationals).  Operations that pandas performs
  in place are modelled by explicit state passing.

  External inputs, namely the balancing-authority reference table, the
  facility-to-state table from eia860_facilities, the fedelemflowlist flow
  mapping and the configuration values, are parameters of the embedded
  functions, mirroring the read-only lookup-table interface they present.

  Python uuid.uuid3 is a fixed deterministic digest of its input path; the
  digest function itself lives outside the repository, so it is modelled as
  the injective function packaging the normalized path.  Everything the
  claims state about identifiers concerns the normalization pipeline feeding
  that digest and the determinism and reuse of its outputs, which this model
  renders faithfully.
-/

namespace ELCI

/-! ## Python string model -/

/-- A Python string, as its list of code points. -/
abbrev Str := List Nat

/-- Embed a Lean string literal as a model string. -/
def S (s : String) : Str := s.data.map Char.toNat

/-- Python whitespace test restricted to the ASCII whitespace characters
recognized by str.strip: space, tab, linefeed, carriage return, vertical
tab and formfeed. -/
def isSpc (c : Nat) : Bool :=
  decide (c = 32 ∨ c = 9 ∨ c = 10 ∨ c = 13 ∨ c = 11 ∨ c = 12)

/-- ASCII lower-casing of one code point, as in str.lower. -/
def lowerChar (c : Nat) : Nat := if 65 ≤ c ∧ c ≤ 90 then c + 32 else c

/-- ASCII upper-casing of one code point, as in str.upper. -/
def upperChar (c : Nat) : Nat := if 97 ≤ c ∧ c ≤ 122 then c - 32 else c

/-- Python str.lower. -/
def pyLower (s : Str) : Str := s.map lowerChar

/-- Python str.upper. -/
def pyUpper (s : Str) : Str := s.map upperChar

/-- Drop leading whitespace. -/
def stripLeft (s : Str) : Str := s.dropWhile isSpc

/-- Drop trailing whitespace, as in str.rstrip. -/
def pyRStrip (s : Str) : Str := ((stripLeft s.reverse)).reverse

/-- Python str.strip: drop whitespace from both ends. -/
def pyStrip (s : Str) : Str := stripLeft (pyRStrip s)

/-- Python "/".join. -/
def joinSlash : List Str → Str
  | [] => []
  | [x] => x
  | x :: y :: rest => x ++ 47 :: joinSlash (y :: rest)

/-- Python str.split on the slash character, keeping empty parts. -/
def splitOnSlash : Str → List Str
  | [] => [[]]
  | c :: rest =>
    match splitOnSlash rest with
    | [] => if c = 47 then [[], []] else [[c]]
    | p :: ps => if c = 47 then [] :: p :: ps else (c :: p) :: ps

/-! ## Interchange serializer: olca_jsonld_writer.py

The writer receives a dictionary of process definitions.  The values of the
'name' and 'category' keys are either absent or None (modelled as PyVal.null,
turned by Python str() into the text "None") or strings.  uuid.uuid3 applied
to the NAMESPACE_OID namespace is a fixed deterministic digest of the path
string; it is modelled by the injective constructor UID.ofPath, so an
identifier carries exactly the information the digest is computed from. -/

/-- A Python value stored under a dictionary key relevant to naming:
either None (also the result of a missing key) or a string. -/
inductive PyVal where
  | null : PyVal
  | str : Str → PyVal
deriving DecidableEq

/-- Python str() on such a value. -/
def pyStr : PyVal → Str
  | PyVal.null => S "None"
  | PyVal.str s => s

/-- A deterministic identifier, as produced by uuid.uuid3(NAMESPACE_OID, p):
a digest of the path string p. -/
structure UID where
  ofPath :: path : Str
deriving DecidableEq

/-- Embedding of olca_jsonld_writer._uid: join the stripped arguments with
slashes, lower-case the joined path, and digest it. -/
def uidOf (args : List Str) : UID :=
  UID.ofPath (pyLower (joinSlash (args.map pyStrip)))

/-- The text str(olca.ModelType.PROCESS) of the enum member passed to _uid
by write. -/
def modelTypeProcessStr : Str := S "ModelType.PROCESS"

/-- The text str(olca.ModelType.PROCESS.value) used by _category for the
uid paths of categories. -/
def modelTypeProcessValue : Str := S "PROCESS"

/-- One exchange dictionary (an entry of the 'exchanges' list of a process
definition); a None entry of that list is modelled as Option.none around
this structure.  Unit references are nested dictionaries in the source and
are reduced here to the unit name that _val(d, 'unit', 'name') extracts. -/
structure ExchDict where
  input : Option Bool
  quantitativeReference : Option Bool
  avoidedProduct : Option Bool
  amount : Option ℚ
  unitName : Option Str
deriving DecidableEq

/-- One process definition dictionary, an entry of the dictionary handed to
write. -/
structure ProcDict where
  name : PyVal
  category : PyVal
  exchanges : List (Option ExchDict)
deriving DecidableEq

/-- A written Category record. -/
structure CategoryRec where
  id : UID
  mtypeValue : Str
  name : Str
  parent : Option UID
deriving DecidableEq

/-- Embedding of olca_jsonld_writer._unit: the fixed unit lookup, giving the
reference identifier and name, or none for an unknown unit (logged error in
the source). -/
def unitOf (unitName : Option Str) : Option (Str × Str) :=
  if unitName = some (S "MWh") then
    some (S "92e3bd49-8ed5-4885-9db6-fc88c7afcfcb", S "MWh")
  else if unitName = some (S "MJ") then
    some (S "52765a6c-3896-43c2-b2f4-c679acf13efe", S "MJ")
  else if unitName = some (S "kg") then
    some (S "20aadc24-a391-41cf-b340-3e4529f44bde", S "kg")
  else none

/-- Embedding of olca_jsonld_writer._flow_property. -/
def flowPropertyOf (unitName : Option Str) : Option (Str × Str) :=
  if unitName = some (S "MWh") then
    some (S "f6811440-ee37-11de-8a39-0800200c9a66", S "Energy")
  else if unitName = some (S "MJ") then
    some (S "f6811440-ee37-11de-8a39-0800200c9a66", S "Energy")
  else if unitName = some (S "kg") then
    some (S "93a60a56-a3c8-11da-a746-0800200b9a66", S "Mass")
  else none

/-- A built Exchange record. -/
structure ExchangeRec where
  input : Bool
  quantitativeReference : Bool
  avoidedProduct : Bool
  amount : ℚ
  unit : Option (Str × Str)
  flowProperty : Option (Str × Str)
  internalId : Nat
deriving DecidableEq

/-- Embedding of olca_jsonld_writer._exchange: a None entry yields none;
otherwise missing boolean flags default to false and a missing amount to
zero. -/
def exchangeOf : Option ExchDict → Option ExchangeRec
  | none => none
  | some d =>
    some { input := d.input.getD false
           quantitativeReference := d.quantitativeReference.getD false
           avoidedProduct := d.avoidedProduct.getD false
           amount := d.amount.getD 0
           unit := unitOf d.unitName
           flowProperty := flowPropertyOf d.unitName
           internalId := 0 }

/-- The last_id counter of write: assign 1-based sequential internal
identifiers in list order to the exchanges that were not skipped. -/
def withInternalIds : Nat → List ExchangeRec → List ExchangeRec
  | _, [] => []
  | n, e :: es => { e with internalId := n + 1 } :: withInternalIds (n + 1) es

/-- A written Process record. -/
structure ProcessRec where
  id : UID
  name : PyVal
  category : Option UID
  exchanges : List ExchangeRec
deriving DecidableEq

/-- One record streamed into the archive by pack.Writer.write. -/
inductive Record where
  | cat : CategoryRec → Record
  | proc : ProcessRec → Record
deriving DecidableEq

/-- The serializer state: the created-identifier set of a write run and the
records written so far, in order. -/
structure WState where
  created : List UID
  records : List Record
deriving DecidableEq

/-- The identifier write assigns to the process built from dictionary d:
_uid(olca.ModelType.PROCESS, category_path, process.name). -/
def processIdOf (d : ProcDict) : UID :=
  uidOf [modelTypeProcessStr, pyStr d.category, pyStr d.name]

/-- The Category record built by one iteration of the _category loop. -/
def catRecOf (mtv : Str) (pre : List Str) (p : Str) (parent : Option UID) :
    CategoryRec :=
  { id := uidOf (mtv :: (pre ++ [p])), mtypeValue := mtv,
    name := pyStrip p, parent := parent }

/-- The loop body of olca_jsonld_writer._category over the split path
parts: pre is the list of parts already consumed, parent the reference
produced by the previous iteration. -/
def catLoop (mtv : Str) (pre : List Str) (parent : Option UID)
    (st : WState) : List Str → Option UID × WState
  | [] => (parent, st)
  | p :: rest =>
    let u := uidOf (mtv :: (pre ++ [p]))
    let st' :=
      if u ∈ st.created then st
      else { created := u :: st.created
             records := st.records ++ [Record.cat (catRecOf mtv pre p parent)] }
    catLoop mtv (pre ++ [p]) (some u) st' rest

/-- Embedding of olca_jsonld_writer._category: a non-string or
blank-after-strip path yields no category reference and writes nothing;
otherwise the path is split on slashes and each prefix is created at most
once, tracked through the created-identifier set. -/
def categoryOf (path : PyVal) (mtv : Str) (st : WState) :
    Option UID × WState :=
  match path with
  | PyVal.null => (none, st)
  | PyVal.str p =>
    if pyStrip p = [] then (none, st)
    else catLoop mtv [] none st (splitOnSlash p)

/-- Processing of one entry of the process dictionary inside write. -/
def writeOne (st : WState) (d : ProcDict) : WState :=
  let c := categoryOf d.category modelTypeProcessValue st
  let p : ProcessRec :=
    { id := processIdOf d
      name := d.name
      category := c.1
      exchanges := withInternalIds 0 (d.exchanges.filterMap exchangeOf) }
  { created := c.2.created, records := c.2.records ++ [Record.proc p] }

/-- Embedding of olca_jsonld_writer.write: stream every process of the
dictionary (in insertion order) into the archive, with a created-identifier
set scoped to this single call. -/
def write (procs : List ProcDict) : List Record :=
  (procs.foldl writeOne { created := [], records := [] }).records

/-- The Category records among the written records. -/
def catRecords (rs : List Record) : List CategoryRec :=
  rs.filterMap fun r =>
    match r with
    | Record.cat c => some c
    | Record.proc _ => none

/-! ## Serializer invariants -/

/-- The created-identifier set lists exactly the identifiers of the written
Category records, and those identifiers are pairwise distinct. -/
def GoodState (st : WState) : Prop :=
  (∀ u, u ∈ st.created ↔ ∃ c ∈ catRecords st.records, c.id = u)
  ∧ ((catRecords st.records).map CategoryRec.id).Nodup

/-- A Category record produced by the deterministic-identifier scheme: its
identifier is the uid of its full prefix path, its name the stripped last
segment, and its parent reference the uid of the one-shorter prefix (none
for a root segment). -/
def LinkedCat (c : CategoryRec) : Prop :=
  ∃ pre p, c.id = uidOf (c.mtypeValue :: (pre ++ [p]))
    ∧ c.name = pyStrip p
    ∧ c.parent = if pre = [] then none
                 else some (uidOf (c.mtypeValue :: pre))

/-- First process of the concrete C7 run. -/
def c7proc1 : ProcDict :=
  { name := PyVal.str (S "gas"), category := PyVal.str (S "22/Utilities"),
    exchanges := [] }

/-- Second process of the concrete C7 run, sharing the prefix path "22". -/
def c7proc2 : ProcDict :=
  { name := PyVal.str (S "coal"), category := PyVal.str (S "22/Mining"),
    exchanges := [] }

/-! ## Tabular model for combinator.py

A cell value is a string or a rational (floats are modelled as exact
rationals); a cell is an optional value, none denoting NaN.  A row is an
association list from column name to cell, read through getCell, so that a
column missing from a row reads as NaN; a DataFrame couples the list of
column names with the list of rows.  The embedded pandas operations thread
the whole table explicitly where the source mutates in place. -/

/-- A cell value. -/
inductive Val where
  | s : Str → Val
  | q : ℚ → Val
deriving DecidableEq

/-- Association-list lookup with decidable key equality (first match). -/
def alookup {α β : Type} [DecidableEq α] : List (α × β) → α → Option β
  | [], _ => none
  | (k, v) :: rest, x => if x = k then some v else alookup rest x

/-- A row: column name to cell. -/
abbrev Row := List (String × Option Val)

/-- The cell of row r in column c; a missing association reads as NaN. -/
def getCell (r : Row) (c : String) : Option Val :=
  match alookup r c with
  | some v => v
  | none => none

/-- Assign the cell of column c (shadowing any earlier association). -/
def setCell (r : Row) (c : String) (v : Option Val) : Row := (c, v) :: r

/-- A DataFrame. -/
structure DF where
  cols : List String
  rows : List Row
deriving DecidableEq

/-- pandas drop_duplicates with keep equal to first, over the projection
proj of each row: keep a row when no earlier row shares its projection. -/
def dropDupBy (proj : Row → List (Option Val)) :
    List (List (Option Val)) → List Row → List Row
  | _, [] => []
  | seen, r :: rest =>
    if proj r ∈ seen then dropDupBy proj seen rest
    else r :: dropDupBy proj (proj r :: seen) rest

/-- The default target-column list of fill_nans. -/
def defaultTargets : List String :=
  ["Balancing Authority Code", "Balancing Authority Name", "FuelCategory",
   "NERC", "PercentGenerationfromDesignatedFuelCategory", "eGRID_ID",
   "Subregion", "FERC_Region", "EIA_Region", "State", "Electricity"]

/-- The confirmed target columns of fill_nans: the requested targets (the
default set when the request is empty) that are present in the table;
absent ones are skipped with a logged warning. -/
def confirmedTargets (cols : List String) (targets : List String) :
    List String :=
  (if targets.isEmpty then defaultTargets else targets).filter
    fun c => cols.contains c

/-- The per-column lookup table of one fill_nans iteration, embedding
df[[key, col]].dropna().drop_duplicates(subset=key).set_index(key): the
rows where both the key and the column are non-null, first row kept per
key value. -/
def keyDfOf (rows : List Row) (key col : String) : List Row :=
  dropDupBy (fun r => [getCell r key]) []
    (rows.filter fun r =>
      (getCell r key).isSome && (getCell r col).isSome)

/-- One column pass of fill_nans: assign to every row whose target cell is
null the lookup value of its key (a missed lookup assigns NaN, leaving the
cell null). -/
def fillCol (rows : List Row) (key col : String) : List Row :=
  let keyDf := keyDfOf rows key col
  rows.map fun r =>
    if (getCell r col).isSome then r
    else
      match getCell r key with
      | none => r
      | some k =>
        match (keyDf.find? fun r2 => getCell r2 key == some k).bind
            (fun r2 => getCell r2 col) with
        | none => r
        | some v => setCell r col (some v)

/-- The column-wise fill loop of fill_nans, over the confirmed targets in
order, each pass reading the table as left by the previous one. -/
def fillPhase (rows : List Row) (key : String) (confirmed : List String) :
    List Row :=
  confirmed.foldl (fun rs c => fillCol rs key c) rows

/-- The final State fallback of fill_nans: every row with a null State
cell is filled from the facility-to-state reference table (built from
eia860_balancing_authority and passed here as a parameter), keyed on the
eGRID_ID cell of the row. -/
def stateFallback (rows : List Row) (plantBA : List (Val × Val)) :
    List Row :=
  rows.map fun r =>
    if (getCell r "State").isSome then r
    else
      match getCell r "eGRID_ID" with
      | none => r
      | some g =>
        match alookup plantBA g with
        | none => r
        | some v => setCell r "State" (some v)

/-- Embedding of combinator.fill_nans.  The key-column check raises
KeyError before any fill; reading the eGRID_ID column inside the State
fallback raises KeyError when that column is absent from the table; both
are modelled as the error result.  When the State column is absent it is
created all-null and appended to the drop set. -/
def fill_nans (df : DF) (key : String) (targets : List String)
    (dropna : Bool) (plantBA : List (Val × Val)) : Except Unit DF :=
  let confirmed := confirmedTargets df.cols targets
  if df.cols.contains key = false then Except.error ()
  else
    let rows1 := fillPhase df.rows key confirmed
    let cols2 := if df.cols.contains "State" then df.cols
                 else df.cols ++ ["State"]
    let confirmed2 := if df.cols.contains "State" then confirmed
                      else confirmed ++ ["State"]
    if df.cols.contains "eGRID_ID" = false then Except.error ()
    else
      let rows2 := stateFallback rows1 plantBA
      let rows3 := if dropna then
          rows2.filter fun r => confirmed2.all fun c => (getCell r c).isSome
        else rows2
      Except.ok { cols := cols2, rows := rows3 }

/-- The rows fill_nans computes before the optional drop of incomplete
rows: the column-wise fill followed by the State fallback. -/
def filledRows (df : DF) (key : String) (targets : List String)
    (plantBA : List (Val × Val)) : List Row :=
  stateFallback (fillPhase df.rows key (confirmedTargets df.cols targets))
    plantBA

/-- The drop set of fill_nans: the confirmed targets, with State appended
when the State column had to be created. -/
def dropSet (df : DF) (targets : List String) : List String :=
  if df.cols.contains "State" then confirmedTargets df.cols targets
  else confirmedTargets df.cols targets ++ ["State"]

/-- The lookup the claim describes: among the rows where both the key and
the target column are non-null, the first row (in input iteration order)
whose key cell holds k, giving its target cell. -/
def fillLookup (rows : List Row) (key col : String) (k : Val) : Option Val :=
  ((rows.filter fun r =>
      (getCell r key).isSome && (getCell r col).isSome).find?
    (fun r => getCell r key == some k)).bind fun r => getCell r col

/-- The value a target cell holds after its column pass: unchanged when
non-null, otherwise the lookup value of the key of the row (null key or a
missed lookup leaving the cell null). -/
def fillSpecCell (orig : List Row) (key : String) (r0 : Row) (c : String) :
    Option Val :=
  match getCell r0 c with
  | some v => some v
  | none => (getCell r0 key).bind (fillLookup orig key c)

/-- The invariant of the column-wise fill loop: after the columns of done
have been processed, each row holds the specified fill value in the done
columns and its original value elsewhere. -/
def FillInv (orig : List Row) (key : String) (done : List String)
    (r0 r' : Row) : Prop :=
  (∀ c ∈ done, getCell r' c = fillSpecCell orig key r0 c)
  ∧ ∀ c, c ∉ done → getCell r' c = getCell r0 c

/-- Concrete table for the C5 witness: two rows sharing key 1, the second
with a null B cell. -/
def c5df : DF :=
  { cols := ["K", "B", "eGRID_ID"],
    rows := [[("K", some (Val.q 1)), ("B", some (Val.s (S "a"))),
              ("eGRID_ID", some (Val.q 2))],
             [("K", some (Val.q 1)), ("B", none),
              ("eGRID_ID", some (Val.q 2))]] }

/-- The table fill_nans returns on the C5 witness input. -/
def c5out : DF :=
  { cols := ["K", "B", "eGRID_ID", "State"],
    rows := [[("K", some (Val.q 1)), ("B", some (Val.s (S "a"))),
              ("eGRID_ID", some (Val.q 2))],
             [("B", some (Val.s (S "a"))), ("K", some (Val.q 1)), ("B", none),
              ("eGRID_ID", some (Val.q 2))]] }

/-- Concrete table for the C10 witness: no State column. -/
def c10df : DF :=
  { cols := ["FacilityID", "eGRID_ID"],
    rows := [[("FacilityID", some (Val.q 1)), ("eGRID_ID", some (Val.q 7))]] }

/-- The facility-to-state reference table of the C10 witness. -/
def c10pba : List (Val × Val) := [(Val.q 7, Val.s (S "TX"))]

/-- The table fill_nans returns on the C10 witness input. -/
def c10out : DF :=
  { cols := ["FacilityID", "eGRID_ID", "State"],
    rows := [[("State", some (Val.s (S "TX"))), ("FacilityID", some (Val.q 1)),
              ("eGRID_ID", some (Val.q 7))]] }

/-! ## Plant and upstream combiner: concat_clean_upstream_and_plant

The balancing-authority reference table ba_codes (read once at module load
from the two BA_Codes_930 sheets and indexed by BA code) is a parameter:
for each BA code it gives the BA_Name, FERC_Region and EIA_Region cells.
The merge step is modelled for the shapes the pipeline produces, where the
upstream table shares no column with the joined plant projection, so no
suffix renaming arises. -/

/-- The region columns joined from the plant table onto the upstream
table. -/
def region_cols : List String :=
  ["NERC", "Balancing Authority Code", "Balancing Authority Name",
   "Subregion"]

/-- Projection of a row onto a column list, with explicit cells. -/
def projRow (cols : List String) (r : Row) : Row :=
  cols.map fun c => (c, getCell r c)

/-- The balancing-authority reference table: BA code to the BA_Name,
FERC_Region and EIA_Region cells. -/
structure BACodes where
  name : List (Val × Option Val)
  ferc : List (Val × Option Val)
  eia : List (Val × Option Val)

/-- Embedding of the up_df.merge(...) step: left merge of the upstream
rows against the deduplicated (eGRID_ID + region columns) projection of
the plant table, on plant_id equal to eGRID_ID; an unmatched or null
plant_id leaves the joined cells null. -/
def mergeRegion (up pl : DF) : DF :=
  let rightRows := dropDupBy (fun r => (("eGRID_ID" :: region_cols)).map
    (getCell r)) [] (pl.rows.map (projRow ("eGRID_ID" :: region_cols)))
  { cols := up.cols ++ ("eGRID_ID" :: region_cols).filter
      (fun c => !(up.cols.contains c)),
    rows := up.rows.flatMap fun r =>
      let ms := rightRows.filter fun rr =>
        (getCell r "plant_id").isSome
          && (getCell rr "eGRID_ID" == getCell r "plant_id")
      if ms.isEmpty then [r] else ms.map fun rr => r ++ rr }

/-- Embedding of pd.concat: plant rows then upstream rows, columns
aligned by name. -/
def concatDF (a b : DF) : DF :=
  { cols := a.cols ++ b.cols.filter fun c => !(a.cols.contains c),
    rows := a.rows ++ b.rows }

/-- Assign column dst from mapping the src column through a reference
series (a missed lookup or a null stored value assigns NaN), on every
row. -/
def mapCol (rows : List Row) (dst src : String)
    (tbl : List (Val × Option Val)) : List Row :=
  rows.map fun r =>
    setCell r dst ((getCell r src).bind fun v => (alookup tbl v).join)

/-- Record a column created by an assignment. -/
def addColIfAbsent (cols : List String) (c : String) : List String :=
  if cols.contains c then cols else cols ++ [c]

/-- The columns the combiner deletes after the merge (a missing one only
logs a warning). -/
def categories_to_delete : List String :=
  ["plant_id", "FuelCategory_right", "Net Generation (MWh)",
   "PrimaryFuel_right"]

/-- Drop columns by name, from the column list and from every row. -/
def dropColsDF (df : DF) (cs : List String) : DF :=
  { cols := df.cols.filter fun c => !(cs.contains c),
    rows := df.rows.map fun r => r.filter fun p => !(cs.contains p.1) }

/-- The stage-code nulling of the combiner: FuelCategory becomes NaN on
every row whose stage code is not Power plant (a null stage code compares
unequal, as the pandas equality mask does). -/
def stageNull (r : Row) : Row :=
  if getCell r "stage_code" == some (Val.s (S "Power plant")) then r
  else setCell r "FuelCategory" none

/-- The construction nulling of the combiner: FuelCategory becomes NaN on
every row where it is CONSTRUCTION. -/
def constructionNull (r : Row) : Row :=
  if getCell r "FuelCategory" == some (Val.s (S "CONSTRUCTION"))
  then setCell r "FuelCategory" none else r

/-- The combiner up to and including the fuel-category nulling: merge the
region columns onto the upstream table, concatenate with the plant table,
re-derive BA name and the FERC and EIA regions from the BA code, drop the
redundant columns, copy eGRID_ID into FacilityID, null FuelCategory on
every row whose stage code is not Power plant, and null FuelCategory on
every row where it is CONSTRUCTION. -/
def combineStage1 (pl up : DF) (ba : BACodes) : DF :=
  let c1 := concatDF pl (mergeRegion up pl)
  let rows1 := mapCol c1.rows "Balancing Authority Name"
    "Balancing Authority Code" ba.name
  let rows2 := mapCol rows1 "FERC_Region" "Balancing Authority Code" ba.ferc
  let rows3 := mapCol rows2 "EIA_Region" "Balancing Authority Code" ba.eia
  let cols1 := addColIfAbsent (addColIfAbsent (addColIfAbsent c1.cols
    "Balancing Authority Name") "FERC_Region") "EIA_Region"
  let d := dropColsDF { cols := cols1, rows := rows3 } categories_to_delete
  let rows4 := d.rows.map fun r =>
    setCell r "FacilityID" (getCell r "eGRID_ID")
  let cols2 := addColIfAbsent d.cols "FacilityID"
  let rows5 := rows4.map stageNull
  let rows6 := rows5.map constructionNull
  { cols := addColIfAbsent cols2 "FuelCategory", rows := rows6 }

/-- Rational addition, multiplication and division, written through mkRat
so that concrete pipeline runs evaluate inside the kernel; the bridge
lemmas below identify them with the field operations of ℚ. -/
def qadd (a b : ℚ) : ℚ :=
  mkRat (a.num * b.den + b.num * a.den) (a.den * b.den)

/-- Rational multiplication through mkRat. -/
def qmul (a b : ℚ) : ℚ := mkRat (a.num * b.num) (a.den * b.den)

/-- Rational division through mkRat (division by zero gives zero, as in
ℚ). -/
def qdiv (a b : ℚ) : ℚ :=
  if 0 ≤ b.num then mkRat (a.num * b.den) (a.den * b.num.toNat)
  else mkRat (-(a.num * b.den)) (a.den * (-b.num).toNat)

/-- The generation filter of the combiner: the percent-generation cell is
numeric and strictly below the configured threshold divided by 100 (a
null or non-numeric cell compares false). -/
def belowThreshold (minPct : ℚ) (r : Row) : Bool :=
  match getCell r "PercentGenerationfromDesignatedFuelCategory" with
  | some (Val.q x) => decide (x < qdiv minPct 100)
  | _ => false

/-- Relabeling applied to a below-threshold row when the keep-mixed flag
is set. -/
def mixRelabel (r : Row) : Row :=
  setCell (setCell r "FuelCategory" (some (Val.s (S "MIXED"))))
    "PrimaryFuel" (some (Val.s (S "Mixed Fuel Type")))

/-- The configurable mixed-plant policy at the end of the combiner. -/
def applyMixedPolicy (keepMixed : Bool) (minPct : ℚ) (d : DF) : DF :=
  if keepMixed then
    { cols := addColIfAbsent (addColIfAbsent d.cols "FuelCategory")
        "PrimaryFuel",
      rows := d.rows.map fun r =>
        if belowThreshold minPct r then mixRelabel r else r }
  else
    { cols := d.cols, rows := d.rows.filter fun r => !(belowThreshold minPct r) }

/-- The combiner through the fill pass: the column reads the source
performs before filling raise KeyError when the column is absent
(modelled as the error result), then fill_nans runs with its defaults
over the combined table. -/
def combineStage2 (pl up : DF) (ba : BACodes) (pba : List (Val × Val)) :
    Except Unit DF :=
  if !(("eGRID_ID" :: region_cols).all fun c => pl.cols.contains c) then
    Except.error ()
  else if !(up.cols.contains "plant_id") then Except.error ()
  else if !((concatDF pl (mergeRegion up pl)).cols.contains "stage_code")
    then Except.error ()
  else fill_nans (combineStage1 pl up ba) "FacilityID" [] true pba

/-- Embedding of combinator.concat_clean_upstream_and_plant. -/
def concat_clean_upstream_and_plant (pl up : DF) (ba : BACodes)
    (pba : List (Val × Val)) (keepMixed : Bool) (minPct : ℚ) :
    Except Unit DF :=
  match combineStage2 pl up ba pba with
  | Except.error e => Except.error e
  | Except.ok d =>
    if !(d.cols.contains "PercentGenerationfromDesignatedFuelCategory")
    then Except.error ()
    else Except.ok (applyMixedPolicy keepMixed minPct d)

/-- The rows of a combiner result, empty on error. -/
def rowsOf : Except Unit DF → List Row
  | Except.ok d => d.rows
  | Except.error _ => []

/-- A combiner result table, defaulting to the empty table on error. -/
def exceptDF : Except Unit DF → DF
  | Except.ok d => d
  | Except.error _ => { cols := [], rows := [] }

/-- The plant table of the concrete C2 run: one gas plant row with
complete metadata. -/
def c2pl : DF :=
  { cols := ["eGRID_ID", "stage_code", "FuelCategory", "NERC",
             "Balancing Authority Code", "Balancing Authority Name",
             "Subregion", "PercentGenerationfromDesignatedFuelCategory",
             "State", "Electricity"],
    rows := [[("eGRID_ID", some (Val.q 1)),
              ("stage_code", some (Val.s (S "Power plant"))),
              ("FuelCategory", some (Val.s (S "GAS"))),
              ("NERC", some (Val.s (S "N"))),
              ("Balancing Authority Code", some (Val.s (S "BA1"))),
              ("Balancing Authority Name", some (Val.s (S "X"))),
              ("Subregion", some (Val.s (S "SR"))),
              ("PercentGenerationfromDesignatedFuelCategory",
                some (Val.q (mkRat 9 10))),
              ("State", some (Val.s (S "TX"))),
              ("Electricity", some (Val.q 100))]] }

/-- The upstream table of the concrete C2 run: one construction-stage row
for the same plant, tagged CONSTRUCTION. -/
def c2up : DF :=
  { cols := ["plant_id", "stage_code", "FuelCategory"],
    rows := [[("plant_id", some (Val.q 1)),
              ("stage_code", some (Val.s (S "Upstream construction"))),
              ("FuelCategory", some (Val.s (S "CONSTRUCTION")))]] }

/-- The balancing-authority reference table of the concrete C2 run. -/
def c2ba : BACodes :=
  { name := [(Val.s (S "BA1"), some (Val.s (S "BA One")))],
    ferc := [(Val.s (S "BA1"), some (Val.s (S "F1")))],
    eia := [(Val.s (S "BA1"), some (Val.s (S "E1")))] }

/-- The table returned by the concrete C2 run. -/
def c2out : DF :=
  exceptDF (concat_clean_upstream_and_plant c2pl c2up c2ba [] false 50)

/-- The plant table of the concrete C8 run: percent generation from the
designated fuel category is 40 percent, below the 50 percent threshold. -/
def c8pl : DF :=
  { cols := ["eGRID_ID", "stage_code", "FuelCategory", "NERC",
             "Balancing Authority Code", "Balancing Authority Name",
             "Subregion", "PercentGenerationfromDesignatedFuelCategory",
             "State", "Electricity"],
    rows := [[("eGRID_ID", some (Val.q 1)),
              ("stage_code", some (Val.s (S "Power plant"))),
              ("FuelCategory", some (Val.s (S "GAS"))),
              ("NERC", some (Val.s (S "N"))),
              ("Balancing Authority Code", some (Val.s (S "BA1"))),
              ("Balancing Authority Name", some (Val.s (S "X"))),
              ("Subregion", some (Val.s (S "SR"))),
              ("PercentGenerationfromDesignatedFuelCategory",
                some (Val.q (mkRat 2 5))),
              ("State", some (Val.s (S "TX"))),
              ("Electricity", some (Val.q 100))]] }

/-- The fill-pass intermediate table of the concrete C8 run. -/
def c8d : DF := exceptDF (combineStage2 c8pl c2up c2ba [])

/-- The table returned by the concrete C8 run with keep-mixed set. -/
def c8out : DF :=
  exceptDF (concat_clean_upstream_and_plant c8pl c2up c2ba [] true 50)

/-! ## Upstream flow mapper: concat_map_upstream_databases

The fedelemflowlist eLCI flow mapping is a parameter, restricted to the
columns the function consumes (source name and context, target name,
UUID, context and unit, and the conversion factor).  Pandas sorts group
keys; that order is realised by an insertion sort over a lexicographic
order on key tuples, matching the Python tuple order on the string and
numeric values occurring in keys. -/

/-- Whether the first string is an initial segment of the second. -/
def startsWithStr : Str → Str → Bool
  | [], _ => true
  | _ :: _, [] => false
  | a :: as, b :: bs => a == b && startsWithStr as bs

/-- Python substring containment, as in Series.str.contains with a plain
pattern. -/
def containsSub (needle : Str) : Str → Bool
  | [] => needle.isEmpty
  | c :: t => startsWithStr needle (c :: t) || containsSub needle t

/-- The compartment-to-path dictionary applied to tables lacking a
Compartment_path column. -/
def compartment_mapping : List (Str × Str) :=
  [(S "air", S "emission/air"), (S "water", S "emission/water"),
   (S "ground", S "emission/ground"), (S "soil", S "emission/ground"),
   (S "resource", S "resource"),
   (S "NETL database/emissions", S "NETL database/emissions"),
   (S "NETL database/resources", S "NETL database/resources")]

/-- Derive the Compartment_path column from the Compartment column when
it is absent. -/
def addCompartmentPath (df : DF) : DF :=
  if df.cols.contains "Compartment_path" then df
  else
    { cols := df.cols ++ ["Compartment_path"],
      rows := df.rows.map fun r =>
        setCell r "Compartment_path"
          (match getCell r "Compartment" with
           | some (Val.s c) => (alookup compartment_mapping c).map Val.s
           | _ => none) }

/-- Concatenation of the input tables in order. -/
def concatMany (dfs : List DF) : DF :=
  dfs.foldl concatDF { cols := [], rows := [] }

/-- A pandas .str method applied to a cell: a non-string value becomes
NaN. -/
def normStr (f : Str → Str) (v : Option Val) : Option Val :=
  match v with
  | some (Val.s s) => some (Val.s (f s))
  | _ => none

/-- The preparation of the concatenated upstream table: preserve the
original flow name, compartment, compartment path and unit in separate
columns, then lower-case and right-strip the flow name, compartment and
compartment path used for matching. -/
def mapperPrep (dfs : List DF) : DF :=
  let u := concatMany (dfs.map addCompartmentPath)
  { cols := addColIfAbsent (addColIfAbsent (addColIfAbsent (addColIfAbsent
      u.cols "FlowName_orig") "Compartment_orig") "Compartment_path_orig")
      "Unit_orig",
    rows := u.rows.map fun r =>
      let r1 := setCell r "FlowName_orig" (getCell r "FlowName")
      let r2 := setCell r1 "Compartment_orig" (getCell r "Compartment")
      let r3 := setCell r2 "Compartment_path_orig"
        (getCell r "Compartment_path")
      let r4 := setCell r3 "Unit_orig" (getCell r "Unit")
      let r5 := setCell r4 "FlowName"
        (normStr (fun s => pyRStrip (pyLower s)) (getCell r "FlowName"))
      let r6 := setCell r5 "Compartment"
        (normStr (fun s => pyRStrip (pyLower s)) (getCell r "Compartment"))
      setCell r6 "Compartment_path"
        (normStr (fun s => pyRStrip (pyLower s))
          (getCell r "Compartment_path")) }

/-- The Unit fillna with the literal blank placeholder. -/
def unitFill (rows : List Row) : List Row :=
  rows.map fun r =>
    if (getCell r "Unit").isSome then r
    else setCell r "Unit" (some (Val.s (S "<blank>")))

/-- The grouping key columns of the upstream flow mapper. -/
def groupbyCols : List String :=
  ["fuel_type", "stage_code", "FlowName", "Compartment", "input",
   "plant_id", "Compartment_path", "Unit", "FlowName_orig",
   "Compartment_path_orig", "Unit_orig"]

/-- The grouping key of a row: the tuple of its cells in the key columns,
none when any of them is null (pandas groupby drops such rows). -/
def keyOf : List String → Row → Option (List Val)
  | [], _ => some []
  | c :: cs, r =>
    match getCell r c, keyOf cs r with
    | some v, some vs => some (v :: vs)
    | _, _ => none

/-- The numeric reading of a cell, none for a null or string cell. -/
def cellQ (r : Row) (c : String) : Option ℚ :=
  match getCell r c with
  | some (Val.q a) => some a
  | _ => none

/-- The aggregation state of one group: the amount sum (null amounts
contribute zero, as pandas sum skips them) and the count and sum of the
non-null quantity and electricity cells for the means. -/
structure GAcc where
  key : List Val
  sumA : ℚ
  cntQ : Nat
  sumQ : ℚ
  cntE : Nat
  sumE : ℚ
deriving DecidableEq

/-- The aggregation state opened by the first row of a group. -/
def ginit (k : List Val) (r : Row) : GAcc :=
  { key := k, sumA := (cellQ r "FlowAmount").getD 0,
    cntQ := if (cellQ r "quantity").isSome then 1 else 0,
    sumQ := (cellQ r "quantity").getD 0,
    cntE := if (cellQ r "Electricity").isSome then 1 else 0,
    sumE := (cellQ r "Electricity").getD 0 }

/-- Fold one further row of a group into its aggregation state. -/
def gupd (g : GAcc) (r : Row) : GAcc :=
  { g with
    sumA := qadd g.sumA ((cellQ r "FlowAmount").getD 0),
    cntQ := g.cntQ + (if (cellQ r "quantity").isSome then 1 else 0),
    sumQ := qadd g.sumQ ((cellQ r "quantity").getD 0),
    cntE := g.cntE + (if (cellQ r "Electricity").isSome then 1 else 0),
    sumE := qadd g.sumE ((cellQ r "Electricity").getD 0) }

/-- Insert one row into the accumulator list, updating the first state
with its key or appending a fresh state. -/
def ginsert : List GAcc → List Val → Row → List GAcc
  | [], k, r => [ginit k r]
  | g :: gs, k, r =>
    if g.key = k then gupd g r :: gs else g :: ginsert gs k r

/-- One step of the single-pass grouping fold. -/
def gstep (acc : List GAcc) (r : Row) : List GAcc :=
  match keyOf groupbyCols r with
  | none => acc
  | some k => ginsert acc k r

/-- Lexicographic order on code-point lists, as Python compares
strings. -/
def lexLtNat : List Nat → List Nat → Bool
  | [], [] => false
  | [], _ :: _ => true
  | _ :: _, [] => false
  | a :: as, b :: bs =>
    if a < b then true else if b < a then false else lexLtNat as bs

/-- Order on cell values for the group sort. -/
def valLtB : Val → Val → Bool
  | Val.q a, Val.q b => decide (a < b)
  | Val.s a, Val.s b => lexLtNat a b
  | Val.q _, Val.s _ => true
  | Val.s _, Val.q _ => false

/-- Lexicographic order on key tuples. -/
def keyLtB : List Val → List Val → Bool
  | [], [] => false
  | [], _ :: _ => true
  | _ :: _, [] => false
  | a :: as, b :: bs =>
    if valLtB a b then true else if valLtB b a then false else keyLtB as bs

/-- Insertion into a key-sorted accumulator list. -/
def insertSortedG (g : GAcc) : List GAcc → List GAcc
  | [] => [g]
  | h :: t => if keyLtB g.key h.key then g :: h :: t
              else h :: insertSortedG g t

/-- Sort the accumulated groups by key, as pandas groupby does. -/
def sortG : List GAcc → List GAcc
  | [] => []
  | g :: gs => insertSortedG g (sortG gs)

/-- Render one aggregated group as an output row: the key columns, the
summed FlowAmount, the quantity mean (NaN for a group with no non-null
quantity) and, when the Electricity column exists, its mean. -/
def renderG (hasE : Bool) (g : GAcc) : Row :=
  (groupbyCols.zip (g.key.map some))
  ++ [("FlowAmount", some (Val.q g.sumA)),
      ("quantity", if g.cntQ = 0 then none
                   else some (Val.q (qdiv g.sumQ (mkRat g.cntQ 1))))]
  ++ (if hasE then
      [("Electricity", if g.cntE = 0 then none
                       else some (Val.q (qdiv g.sumE (mkRat g.cntE 1))))]
      else [])

/-- The grouping step of the upstream flow mapper: group by the key
columns, summing FlowAmount and averaging quantity (and Electricity when
present). -/
def mapperGroup (hasE : Bool) (rows : List Row) : List Row :=
  (sortG (rows.foldl gstep [])).map (renderG hasE)

/-- One row of the eLCI flow mapping, restricted to the columns the
mapper consumes. -/
structure FlowMapEntry where
  sourceFlowName : Str
  sourceFlowContext : Str
  targetFlowName : Str
  targetFlowUUID : Str
  targetFlowContext : Str
  targetUnit : Str
  conversionFactor : ℚ
deriving DecidableEq

/-- The cells a matched mapping entry contributes to a merged row. -/
def targetCells (e : FlowMapEntry) : Row :=
  [("SourceFlowName", some (Val.s e.sourceFlowName)),
   ("SourceFlowContext", some (Val.s e.sourceFlowContext)),
   ("TargetFlowName", some (Val.s e.targetFlowName)),
   ("TargetFlowUUID", some (Val.s e.targetFlowUUID)),
   ("TargetFlowContext", some (Val.s e.targetFlowContext)),
   ("TargetUnit", some (Val.s e.targetUnit)),
   ("ConversionFactor", some (Val.q e.conversionFactor))]

/-- The left join of the grouped table against the flow mapping (whose
SourceFlowName column was lower-cased first) on normalized flow name and
compartment path; an unmatched row keeps null target cells. -/
def mapperMerge (grows : List Row) (fm : List FlowMapEntry) : List Row :=
  let fm2 := fm.map fun e => { e with sourceFlowName := pyLower e.sourceFlowName }
  grows.flatMap fun g =>
    let ms := fm2.filter fun e =>
      (getCell g "FlowName" == some (Val.s e.sourceFlowName))
        && (getCell g "Compartment_path" == some (Val.s e.sourceFlowContext))
    if ms.isEmpty then [g] else ms.map fun e => g ++ targetCells e

/-- The renaming of the mapped target columns onto the record schema. -/
def mappedColumnDict : List (String × String) :=
  [("TargetFlowName", "FlowName"), ("TargetFlowUUID", "FlowUUID"),
   ("TargetFlowContext", "Compartment"), ("TargetUnit", "Unit")]

/-- Rename row cells through a column-name mapping. -/
def renameRow (m : List (String × String)) (r : Row) : Row :=
  r.map fun p =>
    match alookup m p.1 with
    | some n => (n, p.2)
    | none => p

/-- The fixed output column set of the mapper. -/
def final_columns : List String :=
  ["plant_id", "FuelCategory", "stage_code", "FlowName", "Compartment",
   "Compartment_path", "FlowUUID", "Unit", "ElementaryFlowPrimeContext",
   "FlowAmount", "quantity", "Source", "Year"]

/-- The unique key tuples of a pandas groupby over the given columns
(rows with a null key cell are dropped). -/
def uniqueKeys (cols : List String) (rows : List Row) : List (List Val) :=
  (rows.filterMap (keyOf cols)).dedup

/-- Insertion into a sorted key-tuple list. -/
def insertSortedK (k : List Val) : List (List Val) → List (List Val)
  | [] => [k]
  | h :: t => if keyLtB k h then k :: h :: t else h :: insertSortedK k t

/-- Python sorted() over key tuples. -/
def sortK : List (List Val) → List (List Val)
  | [] => []
  | k :: ks => insertSortedK k (sortK ks)

/-- The result of the mapper: the mapped table, and in diagnostics mode
the unmatched and matched flow lists. -/
structure MapperResult where
  table : DF
  unmatched : Option (List (List Val))
  matched : Option (List (List Val))
deriving DecidableEq

/-- Embedding of combinator.concat_map_upstream_databases.  The file
written in diagnostics mode is out of scope; the two lists returned to
the caller are modelled.  Note that the unmatched list subtracts the set
of mapped 6-tuples from the set of original (name, path) pairs, exactly
as the source does. -/
def concat_map_upstream_databases (dfs : List DF) (fm : List FlowMapEntry)
    (year : Val) (groupName : Option Str) : MapperResult :=
  let u := mapperPrep dfs
  let upstreamColumns := u.cols
  let rowsU := unitFill u.rows
  let hasE := upstreamColumns.contains "Electricity"
  let grouped := mapperGroup hasE rowsU
  let diagRows := rowsU.map (projRow
    ["FlowName_orig", "Compartment_path_orig", "stage_code"])
  let merged := mapperMerge grouped fm
  let merged2 := merged.map fun r => renameRow mappedColumnDict
    (r.filter fun p => !(["FlowName", "Compartment", "Unit"].contains p.1))
  let merged3 := dropDupBy (fun r =>
    ["plant_id", "FlowName", "Compartment_path", "FlowAmount"].map
      (getCell r)) [] merged2
  let merged4 := merged3.filter fun r => (getCell r "FlowName").isSome
  let merged5 := merged4.map fun r => setCell r "FlowAmount"
    (match getCell r "FlowAmount", getCell r "ConversionFactor" with
     | some (Val.q a), some (Val.q b) => some (Val.q (qmul a b))
     | _, _ => none)
  let merged6 := merged5.map (renameRow [("fuel_type", "FuelCategory")])
  let merged7 := merged6.map fun r =>
    setCell r "FuelCategory" (normStr pyUpper (getCell r "FuelCategory"))
  let merged8 := merged7.map fun r =>
    let r1 := setCell r "ElementaryFlowPrimeContext"
      (some (Val.s (S "emission")))
    match getCell r "Compartment" with
    | some (Val.s s) =>
      if containsSub (S "resource") s then
        setCell r1 "ElementaryFlowPrimeContext" (some (Val.s (S "resource")))
      else r1
    | _ => r1
  let merged9 := merged8.map fun r =>
    setCell (setCell r "Source" (some (Val.s (S "netl")))) "Year" (some year)
  let finalCols := final_columns
    ++ (if upstreamColumns.contains "Electricity" then ["Electricity"]
        else [])
    ++ (if upstreamColumns.contains "input" then ["input"] else [])
  let table : DF := { cols := finalCols,
                      rows := merged9.map (projRow finalCols) }
  match groupName with
  | none => { table := table, unmatched := none, matched := none }
  | some _ =>
    let uniqueOrig := uniqueKeys ["FlowName_orig", "Compartment_path_orig"]
      diagRows
    let uniqueMapped := uniqueKeys
      ["FlowName_orig", "Compartment_path_orig", "Unit_orig", "FlowName",
       "Compartment", "Unit"] merged9
    { table := table,
      unmatched := some (sortK (uniqueOrig.filter fun k =>
        !(uniqueMapped.contains k))),
      matched := some (sortK uniqueMapped) }

/-- Find the aggregation state of a key in the accumulator. -/
def gfind : List GAcc → List Val → Option GAcc
  | [], _ => none
  | g :: gs, k => if g.key = k then some g else gfind gs k

/-- The effect of one matching row on the state of its key. -/
def gstepOpt (k : List Val) (o : Option GAcc) (r : Row) : Option GAcc :=
  match o with
  | none => some (ginit k r)
  | some g => some (gupd g r)

/-- Wellformedness of the grouping accumulator: pairwise distinct keys,
each of the key-column arity. -/
def AccOK (acc : List GAcc) : Prop :=
  (acc.map GAcc.key).Nodup
  ∧ ∀ g ∈ acc, g.key.length = groupbyCols.length

/-- The pre-group rows sharing a full non-null grouping key. -/
def matchingRows (rows : List Row) (k : List Val) : List Row :=
  rows.filter fun r => keyOf groupbyCols r == some k

/-- First pre-group row of the C4 witness. -/
def c4row1 : Row :=
  [("fuel_type", some (Val.s (S "gas"))),
   ("stage_code", some (Val.s (S "extraction"))),
   ("FlowName", some (Val.s (S "co2"))),
   ("Compartment", some (Val.s (S "air"))),
   ("input", some (Val.q 1)),
   ("plant_id", some (Val.q 7)),
   ("Compartment_path", some (Val.s (S "emission/air"))),
   ("Unit", some (Val.s (S "kg"))),
   ("FlowName_orig", some (Val.s (S "CO2"))),
   ("Compartment_path_orig", some (Val.s (S "emission/air"))),
   ("Unit_orig", some (Val.s (S "kg"))),
   ("FlowAmount", some (Val.q 2)),
   ("quantity", some (Val.q 4))]

/-- Second pre-group row of the C4 witness, sharing the full grouping
key. -/
def c4row2 : Row :=
  [("fuel_type", some (Val.s (S "gas"))),
   ("stage_code", some (Val.s (S "extraction"))),
   ("FlowName", some (Val.s (S "co2"))),
   ("Compartment", some (Val.s (S "air"))),
   ("input", some (Val.q 1)),
   ("plant_id", some (Val.q 7)),
   ("Compartment_path", some (Val.s (S "emission/air"))),
   ("Unit", some (Val.s (S "kg"))),
   ("FlowName_orig", some (Val.s (S "CO2"))),
   ("Compartment_path_orig", some (Val.s (S "emission/air"))),
   ("Unit_orig", some (Val.s (S "kg"))),
   ("FlowAmount", some (Val.q 3)),
   ("quantity", some (Val.q 6))]

/-- The shared grouping key of the C4 witness rows. -/
def c4k : List Val :=
  [Val.s (S "gas"), Val.s (S "extraction"), Val.s (S "co2"),
   Val.s (S "air"), Val.q 1, Val.q 7, Val.s (S "emission/air"),
   Val.s (S "kg"), Val.s (S "CO2"), Val.s (S "emission/air"),
   Val.s (S "kg")]

/-- The upstream table of the concrete C3 run: a CO2 flow the mapping
matches and an XYZ flow it does not. -/
def c3df : DF :=
  { cols := ["fuel_type", "stage_code", "FlowName", "Compartment", "input",
             "plant_id", "Unit", "FlowAmount", "quantity"],
    rows := [[("fuel_type", some (Val.s (S "gas"))),
              ("stage_code", some (Val.s (S "extraction"))),
              ("FlowName", some (Val.s (S "CO2"))),
              ("Compartment", some (Val.s (S "air"))),
              ("input", some (Val.q 0)),
              ("plant_id", some (Val.q 1)),
              ("Unit", some (Val.s (S "kg"))),
              ("FlowAmount", some (Val.q 2)),
              ("quantity", some (Val.q 3))],
             [("fuel_type", some (Val.s (S "gas"))),
              ("stage_code", some (Val.s (S "extraction"))),
              ("FlowName", some (Val.s (S "XYZ"))),
              ("Compartment", some (Val.s (S "air"))),
              ("input", some (Val.q 0)),
              ("plant_id", some (Val.q 1)),
              ("Unit", some (Val.s (S "kg"))),
              ("FlowAmount", some (Val.q 5)),
              ("quantity", some (Val.q 3))]] }

/-- The flow mapping of the concrete C3 run: one entry matching CO2 in
emission/air. -/
def c3fm : List FlowMapEntry :=
  [{ sourceFlowName := S "CO2", sourceFlowContext := S "emission/air",
     targetFlowName := S "Carbon dioxide", targetFlowUUID := S "b6f010fb",
     targetFlowContext := S "emission/air", targetUnit := S "kg",
     conversionFactor := 1 }]

/-! ## Basic lemmas about the string model -/

theorem isSpc_lowerChar (c : Nat) : isSpc (lowerChar c) = isSpc c := by
  unfold lowerChar
  split
  · next h =>
    unfold isSpc
    apply decide_eq_decide.mpr
    omega
  · rfl

theorem pyLower_joinSlash (l : List Str) :
    pyLower (joinSlash l) = joinSlash (l.map pyLower) := by
  induction l with
  | nil => rfl
  | cons x rest ih =>
    cases rest with
    | nil => rfl
    | cons y t =>
      have h1 : joinSlash (x :: y :: t) = x ++ 47 :: joinSlash (y :: t) := rfl
      have h2 : joinSlash ((x :: y :: t).map pyLower)
          = pyLower x ++ 47 :: joinSlash ((y :: t).map pyLower) := rfl
      rw [h1, h2, ← ih]
      show (x ++ 47 :: joinSlash (y :: t)).map lowerChar
          = x.map lowerChar ++ 47 :: (joinSlash (y :: t)).map lowerChar
      rw [List.map_append, List.map_cons]
      rfl

theorem stripLeft_pyLower (s : Str) :
    stripLeft (pyLower s) = pyLower (stripLeft s) := by
  unfold stripLeft pyLower
  rw [List.dropWhile_map]
  have h : (isSpc ∘ lowerChar) = isSpc := funext isSpc_lowerChar
  rw [h]

theorem reverse_pyLower (s : Str) :
    (pyLower s).reverse = pyLower s.reverse := by
  unfold pyLower
  exact (List.map_reverse lowerChar s).symm

theorem pyStrip_pyLower (s : Str) :
    pyStrip (pyLower s) = pyLower (pyStrip s) := by
  unfold pyStrip pyRStrip
  rw [reverse_pyLower, stripLeft_pyLower, reverse_pyLower, stripLeft_pyLower]

theorem catRecords_append (a b : List Record) :
    catRecords (a ++ b) = catRecords a ++ catRecords b := by
  unfold catRecords
  exact List.filterMap_append a b _

theorem catRecords_proc (a : List Record) (p : ProcessRec) :
    catRecords (a ++ [Record.proc p]) = catRecords a := by
  rw [catRecords_append]
  simp [catRecords]

theorem catRecords_single (c : CategoryRec) :
    catRecords [Record.cat c] = [c] := rfl

theorem catLoop_created_mono (mtv : Str) (parts : List Str) :
    ∀ pre parent st, st.created ⊆
      (catLoop mtv pre parent st parts).2.created := by
  induction parts with
  | nil => intro pre parent st; exact fun u hu => hu
  | cons p rest ih =>
    intro pre parent st u hu
    simp only [catLoop]
    apply ih
    split
    · exact hu
    · exact List.mem_cons_of_mem _ hu

theorem catLoop_records_mono (mtv : Str) (parts : List Str) :
    ∀ pre parent st, ∃ l,
      (catLoop mtv pre parent st parts).2.records = st.records ++ l := by
  induction parts with
  | nil => intro pre parent st; exact ⟨[], by simp [catLoop]⟩
  | cons p rest ih =>
    intro pre parent st
    simp only [catLoop]
    split
    · exact ih _ _ _
    · obtain ⟨l, hl⟩ := ih (pre ++ [p]) (some (uidOf (mtv :: (pre ++ [p]))))
        { created := uidOf (mtv :: (pre ++ [p])) :: st.created
          records := st.records ++ [Record.cat (catRecOf mtv pre p parent)] }
      exact ⟨[Record.cat (catRecOf mtv pre p parent)] ++ l,
        by rw [hl, List.append_assoc]⟩

theorem catLoop_linked (mtv : Str) (parts : List Str) :
    ∀ pre parent st,
      parent = (if pre = [] then none else some (uidOf (mtv :: pre))) →
      (∀ c ∈ catRecords st.records, LinkedCat c) →
      ∀ c ∈ catRecords (catLoop mtv pre parent st parts).2.records,
        LinkedCat c := by
  induction parts with
  | nil => intro pre parent st _ hst; exact hst
  | cons p rest ih =>
    intro pre parent st hpar hst
    simp only [catLoop]
    apply ih (pre ++ [p]) _ _ (by simp)
    split
    · exact hst
    · intro c hc
      dsimp only at hc
      rw [catRecords_append, catRecords_single] at hc
      rcases List.mem_append.mp hc with hm | hm
      · exact hst c hm
      · rw [List.mem_singleton] at hm
        subst hm
        exact ⟨pre, p, rfl, rfl, hpar⟩

theorem catLoop_goodstate (mtv : Str) (parts : List Str) :
    ∀ pre parent st, GoodState st →
      GoodState (catLoop mtv pre parent st parts).2 := by
  induction parts with
  | nil => intro pre parent st h; exact h
  | cons p rest ih =>
    intro pre parent st h
    simp only [catLoop]
    apply ih
    split
    · exact h
    · next hnot =>
      obtain ⟨hiff, hnd⟩ := h
      constructor
      · intro v
        show v ∈ uidOf (mtv :: (pre ++ [p])) :: st.created ↔
          ∃ c ∈ catRecords
            (st.records ++ [Record.cat (catRecOf mtv pre p parent)]),
            c.id = v
        rw [catRecords_append, catRecords_single]
        constructor
        · intro hv
          rcases List.mem_cons.mp hv with hv | hv
          · exact ⟨catRecOf mtv pre p parent,
              List.mem_append_right _ (List.mem_singleton.mpr rfl), hv.symm⟩
          · obtain ⟨c, hc, hcid⟩ := (hiff v).mp hv
            exact ⟨c, List.mem_append_left _ hc, hcid⟩
        · rintro ⟨c, hc, hcid⟩
          rcases List.mem_append.mp hc with hc | hc
          · exact List.mem_cons_of_mem _ ((hiff v).mpr ⟨c, hc, hcid⟩)
          · rw [List.mem_singleton] at hc
            subst hc
            rw [← hcid]
            exact List.mem_cons_self _ _
      · show ((catRecords
          (st.records ++ [Record.cat (catRecOf mtv pre p parent)])).map
            CategoryRec.id).Nodup
        rw [catRecords_append, catRecords_single, List.map_append]
        rw [List.nodup_append]
        refine ⟨hnd, List.nodup_singleton _, ?_⟩
        intro v hv hv2
        simp only [List.map_cons, List.map_nil, List.mem_singleton] at hv2
        subst hv2
        obtain ⟨c, hc, hcid⟩ := List.mem_map.mp hv
        exact hnot ((hiff _).mpr ⟨c, hc, hcid⟩)

theorem catLoop_prefix_created (mtv : Str) (parts : List Str) :
    ∀ pre parent st, ∀ i, i < parts.length →
      uidOf (mtv :: (pre ++ parts.take (i + 1)))
        ∈ (catLoop mtv pre parent st parts).2.created := by
  induction parts with
  | nil => intro pre parent st i h; cases h
  | cons p rest ih =>
    intro pre parent st i hi
    cases i with
    | zero =>
      simp only [List.take, catLoop]
      apply catLoop_created_mono
      split
      · next hin => exact hin
      · exact List.mem_cons_self _ _
    | succ j =>
      have hj : j < rest.length := by
        simpa [List.length] using Nat.lt_of_succ_lt_succ hi
      simp only [List.take, catLoop]
      have h2 := ih (pre ++ [p]) (some (uidOf (mtv :: (pre ++ [p]))))
        (if uidOf (mtv :: (pre ++ [p])) ∈ st.created then st
         else { created := uidOf (mtv :: (pre ++ [p])) :: st.created
                records := st.records ++
                  [Record.cat (catRecOf mtv pre p parent)] })
        j hj
      rw [List.append_assoc] at h2
      simpa using h2

theorem categoryOf_goodstate (path : PyVal) (mtv : Str) (st : WState)
    (h : GoodState st) : GoodState (categoryOf path mtv st).2 := by
  cases path with
  | null => exact h
  | str p =>
    by_cases hb : pyStrip p = []
    · simpa only [categoryOf, if_pos hb] using h
    · simpa only [categoryOf, if_neg hb] using
        catLoop_goodstate mtv (splitOnSlash p) [] none st h

theorem categoryOf_linked (path : PyVal) (mtv : Str) (st : WState)
    (h : ∀ c ∈ catRecords st.records, LinkedCat c) :
    ∀ c ∈ catRecords (categoryOf path mtv st).2.records, LinkedCat c := by
  cases path with
  | null => exact h
  | str p =>
    by_cases hb : pyStrip p = []
    · simpa only [categoryOf, if_pos hb] using h
    · simpa only [categoryOf, if_neg hb] using
        catLoop_linked mtv (splitOnSlash p) [] none st (by simp) h

theorem categoryOf_created_mono (path : PyVal) (mtv : Str) (st : WState) :
    st.created ⊆ (categoryOf path mtv st).2.created := by
  cases path with
  | null => exact fun u hu => hu
  | str p =>
    by_cases hb : pyStrip p = []
    · simpa only [categoryOf, if_pos hb] using fun u hu => hu
    · simpa only [categoryOf, if_neg hb] using
        catLoop_created_mono mtv (splitOnSlash p) [] none st

theorem writeOne_goodstate (st : WState) (d : ProcDict) (h : GoodState st) :
    GoodState (writeOne st d) := by
  obtain ⟨hiff, hnd⟩ :=
    categoryOf_goodstate d.category modelTypeProcessValue st h
  constructor
  · intro u
    show u ∈ (categoryOf d.category modelTypeProcessValue st).2.created ↔ _
    rw [show (writeOne st d).records
      = (categoryOf d.category modelTypeProcessValue st).2.records
        ++ [Record.proc _] from rfl, catRecords_proc]
    exact hiff u
  · rw [show (writeOne st d).records
      = (categoryOf d.category modelTypeProcessValue st).2.records
        ++ [Record.proc _] from rfl, catRecords_proc]
    exact hnd

theorem writeOne_linked (st : WState) (d : ProcDict)
    (h : ∀ c ∈ catRecords st.records, LinkedCat c) :
    ∀ c ∈ catRecords (writeOne st d).records, LinkedCat c := by
  intro c hc
  rw [show (writeOne st d).records
    = (categoryOf d.category modelTypeProcessValue st).2.records
      ++ [Record.proc _] from rfl, catRecords_proc] at hc
  exact categoryOf_linked d.category modelTypeProcessValue st h c hc

theorem writeOne_created_mono (st : WState) (d : ProcDict) :
    st.created ⊆ (writeOne st d).created :=
  categoryOf_created_mono d.category modelTypeProcessValue st

theorem foldl_writeOne_goodstate (procs : List ProcDict) :
    ∀ st, GoodState st → GoodState (procs.foldl writeOne st) := by
  induction procs with
  | nil => intro st h; exact h
  | cons d rest ih =>
    intro st h
    exact ih (writeOne st d) (writeOne_goodstate st d h)

theorem foldl_writeOne_linked (procs : List ProcDict) :
    ∀ st, (∀ c ∈ catRecords st.records, LinkedCat c) →
      ∀ c ∈ catRecords (procs.foldl writeOne st).records, LinkedCat c := by
  induction procs with
  | nil => intro st h; exact h
  | cons d rest ih =>
    intro st h
    exact ih (writeOne st d) (writeOne_linked st d h)

theorem foldl_writeOne_created_mono (procs : List ProcDict) :
    ∀ st, st.created ⊆ (procs.foldl writeOne st).created := by
  induction procs with
  | nil => intro st u hu; exact hu
  | cons d rest ih =>
    intro st u hu
    exact ih (writeOne st d) (writeOne_created_mono st d hu)

theorem foldl_writeOne_mem_created (procs : List ProcDict)
    (d : ProcDict) (p : Str) (hd : d.category = PyVal.str p)
    (hp : pyStrip p ≠ []) (i : Nat) (hi : i < (splitOnSlash p).length) :
    ∀ st, d ∈ procs →
      uidOf (modelTypeProcessValue :: (splitOnSlash p).take (i + 1))
        ∈ (procs.foldl writeOne st).created := by
  induction procs with
  | nil => intro st h; cases h
  | cons q rest ih =>
    intro st hmem
    rcases List.mem_cons.mp hmem with hq | hq
    · subst hq
      show _ ∈ (rest.foldl writeOne (writeOne st d)).created
      apply foldl_writeOne_created_mono
      rw [show (writeOne st d).created
        = (categoryOf d.category modelTypeProcessValue st).2.created from rfl,
        hd]
      simp only [categoryOf, if_neg hp]
      have h2 := catLoop_prefix_created modelTypeProcessValue
        (splitOnSlash p) [] none st i hi
      simpa using h2
    · show _ ∈ (rest.foldl writeOne (writeOne st q)).created
      exact ih (writeOne st q) hq

/-- The empty serializer state created at the start of one write call. -/
theorem goodstate_init : GoodState { created := [], records := [] } := by
  constructor
  · intro u
    constructor
    · intro h; cases h
    · rintro ⟨c, hc, _⟩; cases hc
  · exact List.nodup_nil

/-- C7: within one call of write, each unique category prefix path gives
rise to exactly one Category record: the identifiers of the written
Category records are pairwise distinct (at most one record per
deterministic identifier, enforced by the created-identifier set); every
written Category record is linked to the uid of its one-shorter prefix
path by the same deterministic-identifier scheme; and for every process
whose category path is a non-blank string, every prefix of the split path
has a Category record with the corresponding deterministic identifier. -/
theorem category_created_once_per_run (procs : List ProcDict) :
    ((catRecords (write procs)).map CategoryRec.id).Nodup
    ∧ (∀ c ∈ catRecords (write procs), LinkedCat c)
    ∧ ∀ d ∈ procs, ∀ p, d.category = PyVal.str p → pyStrip p ≠ [] →
        ∀ i, i < (splitOnSlash p).length →
          ∃ c ∈ catRecords (write procs),
            c.id = uidOf
              (modelTypeProcessValue :: (splitOnSlash p).take (i + 1)) := by
  have hgs := foldl_writeOne_goodstate procs
    { created := [], records := [] } goodstate_init
  obtain ⟨hiff, hnd⟩ := hgs
  refine ⟨hnd, ?_, ?_⟩
  · exact foldl_writeOne_linked procs { created := [], records := [] }
      (by intro c hc; cases hc)
  · intro d hd p hcat hblank i hi
    have hmem := foldl_writeOne_mem_created procs d p hcat hblank i hi
      { created := [], records := [] } hd
    exact (hiff _).mp hmem

/-- Witness for C7 at a concrete run: two processes share the category
prefix path "22", and the prefix has a Category record. -/
theorem category_created_once_per_run_witness :
    c7proc1 ∈ [c7proc1, c7proc2]
    ∧ c7proc1.category = PyVal.str (S "22/Utilities")
    ∧ pyStrip (S "22/Utilities") ≠ []
    ∧ 0 < (splitOnSlash (S "22/Utilities")).length
    ∧ ∃ c ∈ catRecords (write [c7proc1, c7proc2]),
        c.id = uidOf (modelTypeProcessValue
          :: (splitOnSlash (S "22/Utilities")).take (0 + 1)) :=
  ⟨by decide, rfl, by decide, by decide,
    (category_created_once_per_run [c7proc1, c7proc2]).2.2
      c7proc1 (by decide) (S "22/Utilities") rfl (by decide) 0 (by decide)⟩

/-- C1: the process identifier write assigns is a deterministic function
of the model-type tag, the lower-cased category path and the lower-cased
name: two process definitions (from the same or different runs) whose
category paths and names agree after lower-casing receive the identical
identifier. -/
theorem serializer_id_deterministic (d1 d2 : ProcDict) (c1 c2 n1 n2 : Str)
    (h1c : d1.category = PyVal.str c1) (h2c : d2.category = PyVal.str c2)
    (h1n : d1.name = PyVal.str n1) (h2n : d2.name = PyVal.str n2)
    (hc : pyLower c1 = pyLower c2) (hn : pyLower n1 = pyLower n2) :
    processIdOf d1 = processIdOf d2 := by
  unfold processIdOf uidOf
  rw [h1c, h1n, h2c, h2n]
  show UID.ofPath (pyLower (joinSlash
      ([modelTypeProcessStr, c1, n1].map pyStrip)))
    = UID.ofPath (pyLower (joinSlash
      ([modelTypeProcessStr, c2, n2].map pyStrip)))
  congr 1
  rw [pyLower_joinSlash, pyLower_joinSlash]
  simp only [List.map_cons, List.map_nil]
  rw [← pyStrip_pyLower c1, ← pyStrip_pyLower c2, ← pyStrip_pyLower n1,
    ← pyStrip_pyLower n2, hc, hn]

/-- Witness for C1: category paths and names differing only by case give
the same identifier. -/
theorem serializer_id_deterministic_witness :
    pyLower (S "22/Utilities") = pyLower (S "22/utilities")
    ∧ pyLower (S "Electricity; at grid") = pyLower (S "ELECTRICITY; at grid")
    ∧ processIdOf ⟨PyVal.str (S "Electricity; at grid"),
        PyVal.str (S "22/Utilities"), []⟩
      = processIdOf ⟨PyVal.str (S "ELECTRICITY; at grid"),
        PyVal.str (S "22/utilities"), []⟩ :=
  ⟨by decide, by decide,
    serializer_id_deterministic
      ⟨PyVal.str (S "Electricity; at grid"), PyVal.str (S "22/Utilities"), []⟩
      ⟨PyVal.str (S "ELECTRICITY; at grid"), PyVal.str (S "22/utilities"), []⟩
      (S "22/Utilities") (S "22/utilities")
      (S "Electricity; at grid") (S "ELECTRICITY; at grid")
      rfl rfl rfl rfl (by decide) (by decide)⟩

/-- C9: a process definition whose category value is not a string, or is
blank after stripping, is serialized without raising: the process record is
written with a null category reference, and no Category record is written
for it; the created-identifier set is untouched. -/
theorem blank_category_tolerated (st : WState) (d : ProcDict)
    (h : d.category = PyVal.null
      ∨ ∃ p, d.category = PyVal.str p ∧ pyStrip p = []) :
    (writeOne st d).records = st.records
      ++ [Record.proc
          { id := processIdOf d, name := d.name, category := none,
            exchanges :=
              withInternalIds 0 (d.exchanges.filterMap exchangeOf) }]
    ∧ (writeOne st d).created = st.created := by
  rcases h with h | ⟨p, hp, hs⟩
  · simp only [writeOne, h, categoryOf]
    exact ⟨trivial, trivial⟩
  · simp only [writeOne, hp, categoryOf, if_pos hs]
    exact ⟨trivial, trivial⟩

theorem getCell_setCell_self (r : Row) (c : String) (v : Option Val) :
    getCell (setCell r c v) c = v := by
  simp [getCell, setCell, alookup]

theorem getCell_setCell_ne (r : Row) (c c' : String) (v : Option Val)
    (h : c' ≠ c) : getCell (setCell r c v) c' = getCell r c' := by
  simp [getCell, setCell, alookup, h]

theorem fill_nans_ok_elim (df : DF) (key : String) (targets : List String)
    (dn : Bool) (plantBA : List (Val × Val)) (out : DF)
    (h : fill_nans df key targets dn plantBA = Except.ok out) :
    df.cols.contains key = true
    ∧ df.cols.contains "eGRID_ID" = true
    ∧ out.cols = (if df.cols.contains "State" then df.cols
                  else df.cols ++ ["State"])
    ∧ out.rows = (if dn then
        (filledRows df key targets plantBA).filter fun r =>
          (dropSet df targets).all fun c => (getCell r c).isSome
      else filledRows df key targets plantBA) := by
  unfold fill_nans at h
  split at h
  · exact absurd h (by simp)
  · next h1 =>
    split at h
    · next hstate =>
      split at h
      · exact absurd h (by simp)
      · next h2 =>
        injection h with h
        subst h
        refine ⟨by simpa using h1, by simpa using h2, ?_, ?_⟩
        · rw [if_pos hstate]
        · unfold filledRows dropSet
          rw [if_pos hstate]
    · next hstate =>
      split at h
      · exact absurd h (by simp)
      · next h2 =>
        injection h with h
        subst h
        refine ⟨by simpa using h1, by simpa using h2, ?_, ?_⟩
        · rw [if_neg hstate]
        · unfold filledRows dropSet
          rw [if_neg hstate]

/-- C6 counterexample: a table that does contain the key column, on which
fill_nans nevertheless raises, because the State fallback reads the absent
eGRID_ID column (KeyError), refuting that the key column is the only
fatal absence. -/
theorem fill_nans_raises_beyond_missing_key :
    (DF.mk ["FacilityID"] [[("FacilityID", some (Val.q 1))]]).cols.contains
        "FacilityID" = true
    ∧ fill_nans (DF.mk ["FacilityID"] [[("FacilityID", some (Val.q 1))]])
        "FacilityID" [] true [] = Except.error () :=
  ⟨rfl, rfl⟩

/-- C6 amended: fill_nans raises exactly when the key column is absent or
when the eGRID_ID column (read unconditionally by the State fallback) is
absent; an absent requested target column alone is never fatal, the column
is skipped and the call succeeds. -/
theorem fill_nans_error_condition (df : DF) (key : String)
    (targets : List String) (dn : Bool) (plantBA : List (Val × Val)) :
    (fill_nans df key targets dn plantBA).isOk
      = (df.cols.contains key && df.cols.contains "eGRID_ID") := by
  cases hk : df.cols.contains key
  · have hk2 : ¬ (key ∈ df.cols) := by simpa using hk
    simp [fill_nans, hk, hk2, Except.isOk, Except.toBool]
  · have hk2 : key ∈ df.cols := by simpa using hk
    cases he : df.cols.contains "eGRID_ID"
    · have he2 : ¬ ("eGRID_ID" ∈ df.cols) := by simpa using he
      simp [fill_nans, hk, hk2, he, he2, Except.isOk, Except.toBool]
    · have he2 : "eGRID_ID" ∈ df.cols := by simpa using he
      simp [fill_nans, hk, hk2, he, he2, Except.isOk, Except.toBool]

theorem forall2_map {α : Type} (f : α → α) (P : α → α → Prop)
    (h : ∀ a, P a (f a)) : ∀ l : List α, List.Forall₂ P l (l.map f) := by
  intro l
  induction l with
  | nil => exact List.Forall₂.nil
  | cons a rest ih => exact List.Forall₂.cons (h a) ih

theorem fillCol_outside (rows : List Row) (key c c' : String)
    (h : c' ≠ c) :
    List.Forall₂ (fun r r' => getCell r' c' = getCell r c') rows
      (fillCol rows key c) := by
  apply forall2_map
  intro r
  split
  · rfl
  · split
    · rfl
    · split
      · rfl
      · exact getCell_setCell_ne _ _ _ _ h

theorem forall2_trans {α : Type} {P Q R : α → α → Prop}
    (h : ∀ a b c, P a b → Q b c → R a c) :
    ∀ {l1 l2 l3 : List α}, List.Forall₂ P l1 l2 → List.Forall₂ Q l2 l3 →
      List.Forall₂ R l1 l3 := by
  intro l1 l2 l3 h12 h23
  induction h12 generalizing l3 with
  | nil => cases h23; exact List.Forall₂.nil
  | cons hab htl ih =>
    cases h23 with
    | cons hbc htl2 => exact List.Forall₂.cons (h _ _ _ hab hbc) (ih htl2)

theorem fillPhase_outside (key c' : String) (cs : List String) :
    ∀ rows, c' ∉ cs →
      List.Forall₂ (fun r r' => getCell r' c' = getCell r c') rows
        (fillPhase rows key cs) := by
  induction cs with
  | nil =>
    intro rows _
    exact List.forall₂_same.mpr fun r _ => rfl
  | cons c rest ih =>
    intro rows hc
    have h1 := fillCol_outside rows key c c'
      fun h => hc (h ▸ List.mem_cons_self c rest)
    have h2 := ih (fillCol rows key c) fun h => hc (List.mem_cons_of_mem _ h)
    exact forall2_trans (fun a b c hab hbc => hbc.trans hab) h1 h2

theorem forall2_mem_right {α : Type} {P : α → α → Prop} :
    ∀ {l1 l2 : List α}, List.Forall₂ P l1 l2 → ∀ b ∈ l2, ∃ a ∈ l1, P a b := by
  intro l1 l2 h
  induction h with
  | nil => intro b hb; cases hb
  | cons hab _ ih =>
    intro b hb
    rcases List.mem_cons.mp hb with hb | hb
    · subst hb; exact ⟨_, List.mem_cons_self _ _, hab⟩
    · obtain ⟨a, ha, hp⟩ := ih b hb
      exact ⟨a, List.mem_cons_of_mem _ ha, hp⟩

theorem find?_dropDupBy (proj : Row → List (Option Val)) (q : Row → Bool)
    (pv : List (Option Val)) (hq : ∀ r, q r = true ↔ proj r = pv) :
    ∀ (l : List Row) (seen : List (List (Option Val))), pv ∉ seen →
      (dropDupBy proj seen l).find? q = l.find? q := by
  intro l
  induction l with
  | nil => intro seen _; rfl
  | cons r rest ih =>
    intro seen hseen
    unfold dropDupBy
    by_cases hp : proj r ∈ seen
    · rw [if_pos hp]
      have hqr : q r = false := by
        cases hqr : q r
        · rfl
        · have h2 := (hq r).mp hqr
          rw [h2] at hp
          exact absurd hp hseen
      rw [List.find?_cons_of_neg _ (by simp [hqr])]
      exact ih seen hseen
    · rw [if_neg hp]
      cases hqr : q r
      · have hne : pv ∉ proj r :: seen := by
          intro hmem
          rcases List.mem_cons.mp hmem with h1 | h1
          · have : q r = true := (hq r).mpr h1.symm
            rw [this] at hqr
            cases hqr
          · exact hseen h1
        rw [List.find?_cons_of_neg _ (by simp [hqr]),
          List.find?_cons_of_neg _ (by simp [hqr])]
        exact ih (proj r :: seen) hne
      · rw [List.find?_cons_of_pos _ hqr, List.find?_cons_of_pos _ hqr]

theorem keyDf_find_eq (rows : List Row) (key col : String) (k : Val) :
    ((keyDfOf rows key col).find? fun r2 => getCell r2 key == some k)
      = ((rows.filter fun r =>
          (getCell r key).isSome && (getCell r col).isSome).find?
        fun r2 => getCell r2 key == some k) := by
  unfold keyDfOf
  apply find?_dropDupBy (fun r => [getCell r key])
    (fun r2 => getCell r2 key == some k) [some k]
  · intro r
    constructor
    · intro h
      have : getCell r key = some k := by simpa using h
      rw [this]
    · intro h
      have : getCell r key = some k := by simpa using h
      simp [this]
  · simp

theorem fillCol_char (rows : List Row) (key c : String) :
    List.Forall₂ (fun r r' =>
      getCell r' c = fillSpecCell rows key r c
      ∧ ∀ c2, c2 ≠ c → getCell r' c2 = getCell r c2)
      rows (fillCol rows key c) := by
  apply forall2_map
  intro r
  unfold fillSpecCell
  split
  · next hsome =>
    obtain ⟨v, hv⟩ := Option.isSome_iff_exists.mp hsome
    refine ⟨?_, fun c2 _ => rfl⟩
    rw [hv]
  · next hnone =>
    have hcnone : getCell r c = none := by
      cases h : getCell r c
      · rfl
      · rw [h] at hnone; simp at hnone
    split
    · next hkey =>
      refine ⟨?_, fun c2 _ => rfl⟩
      rw [hcnone, hkey]
      rfl
    · next k hkey =>
      split
      · next hfind =>
        refine ⟨?_, fun c2 _ => rfl⟩
        rw [hcnone, hkey]
        show (none : Option Val) = fillLookup rows key c k
        unfold fillLookup
        rw [← keyDf_find_eq]
        exact hfind.symm
      · next v hfind =>
        refine ⟨?_, fun c2 hne => getCell_setCell_ne _ _ _ _ hne⟩
        rw [getCell_setCell_self, hcnone, hkey]
        show some v = fillLookup rows key c k
        unfold fillLookup
        rw [← keyDf_find_eq]
        exact hfind.symm

theorem fillLookup_congr (key c : String) :
    ∀ {rows rows' : List Row},
      List.Forall₂ (fun r r' => getCell r' key = getCell r key
        ∧ getCell r' c = getCell r c) rows rows' →
      ∀ k, fillLookup rows' key c k = fillLookup rows key c k := by
  intro rows rows' h
  induction h with
  | nil => intro k; rfl
  | cons hab htl ih =>
    intro k
    obtain ⟨hk, hc⟩ := hab
    unfold fillLookup
    simp only [List.filter_cons, hk, hc]
    split
    · rw [List.find?_cons, List.find?_cons, hk]
      split
      · exact hc
      · exact ih k
    · exact ih k

theorem fillSpecCell_key (orig : List Row) (key : String) (r0 : Row) :
    fillSpecCell orig key r0 key = getCell r0 key := by
  unfold fillSpecCell
  cases h : getCell r0 key
  · rfl
  · rfl

theorem fillInv_key_cell {orig : List Row} {key : String}
    {done : List String} {r0 r' : Row}
    (h : FillInv orig key done r0 r') :
    getCell r' key = getCell r0 key := by
  by_cases hk : key ∈ done
  · rw [h.1 key hk, fillSpecCell_key]
  · exact h.2 key hk

theorem fillPhase_char (key : String) (cs : List String) :
    ∀ (orig : List Row) (done : List String) (cur : List Row),
      cs.Nodup → (∀ c ∈ cs, c ∉ done) →
      List.Forall₂ (FillInv orig key done) orig cur →
      List.Forall₂ (FillInv orig key (done ++ cs)) orig
        (fillPhase cur key cs) := by
  induction cs with
  | nil =>
    intro orig done cur _ _ hinv
    simpa [fillPhase] using hinv
  | cons c rest ih =>
    intro orig done cur hnd hout hinv
    show List.Forall₂ _ orig (fillPhase (fillCol cur key c) key rest)
    have hcongr : ∀ k, fillLookup cur key c k = fillLookup orig key c k := by
      apply fillLookup_congr
      apply List.Forall₂.imp ?_ hinv
      intro a b hab
      exact ⟨fillInv_key_cell hab,
        hab.2 c (hout c (List.mem_cons_self c rest))⟩
    have hstep : List.Forall₂ (FillInv orig key (done ++ [c])) orig
        (fillCol cur key c) := by
      have hchar := fillCol_char cur key c
      refine forall2_trans ?_ hinv hchar
      intro r0 r1 r2 hin hch
      constructor
      · intro c2 hc2
        rcases List.mem_append.mp hc2 with hc2 | hc2
        · have hne : c2 ≠ c := fun heq =>
            hout c (List.mem_cons_self c rest) (heq ▸ hc2)
          rw [hch.2 c2 hne]
          exact hin.1 c2 hc2
        · rw [List.mem_singleton] at hc2
          subst hc2
          rw [hch.1]
          unfold fillSpecCell
          rw [hin.2 c2 (hout c2 (List.mem_cons_self c2 rest)),
            fillInv_key_cell hin]
          cases hc : getCell r0 c2
          · cases hk : getCell r0 key
            · rfl
            · next val =>
              show fillLookup cur key c2 val = fillLookup orig key c2 val
              exact hcongr val
          · rfl
      · intro c2 hc2
        have hne : c2 ≠ c := fun h => hc2 (h ▸ List.mem_append_right _
          (List.mem_singleton.mpr rfl))
        rw [hch.2 c2 hne]
        exact hin.2 c2 fun h => hc2 (List.mem_append_left _ h)
    have hres := ih orig (done ++ [c]) (fillCol cur key c)
      (List.nodup_cons.mp hnd).2
      (fun c2 hc2 hmem => by
        rcases List.mem_append.mp hmem with h1 | h1
        · exact hout c2 (List.mem_cons_of_mem _ hc2) h1
        · rw [List.mem_singleton] at h1
          subst h1
          exact (List.nodup_cons.mp hnd).1 hc2)
      hstep
    rw [List.append_assoc] at hres
    simpa using hres

/-- The State fallback only assigns to rows whose State cell is null;
every non-null cell survives it. -/
theorem stateFallback_preserves (rows : List Row)
    (plantBA : List (Val × Val)) :
    List.Forall₂ (fun r r' => ∀ c v, getCell r c = some v →
      getCell r' c = some v) rows (stateFallback rows plantBA) := by
  apply forall2_map
  intro r
  split
  · exact fun c v hv => hv
  · next hnone =>
    split
    · exact fun c v hv => hv
    · split
      · exact fun c v hv => hv
      · intro c v hv
        by_cases hcs : c = "State"
        · subst hcs
          rw [hv] at hnone
          simp at hnone
        · rw [getCell_setCell_ne _ _ _ _ hcs]
          exact hv

/-- C5: fill_nans only touches nulls.  Every non-null cell of the input is
unchanged in the corresponding filled row (column passes and State fallback
included); the returned rows are a sublist of those filled rows (the drop
pass removes whole rows only); and the column-wise pass gives every
confirmed target column of every row exactly its specified value: the
original value when non-null, otherwise the value of the first row (in
input iteration order) sharing the key whose key and target cells are both
non-null, while all other columns are untouched. -/
theorem fill_only_touches_nulls (df : DF) (key : String)
    (targets : List String) (dn : Bool) (plantBA : List (Val × Val))
    (out : DF)
    (h : fill_nans df key targets dn plantBA = Except.ok out)
    (hnd : (confirmedTargets df.cols targets).Nodup) :
    List.Forall₂ (fun r r' => ∀ c v, getCell r c = some v →
        getCell r' c = some v) df.rows (filledRows df key targets plantBA)
    ∧ out.rows.Sublist (filledRows df key targets plantBA)
    ∧ List.Forall₂ (fun r r' =>
        (∀ c ∈ confirmedTargets df.cols targets,
          getCell r' c = fillSpecCell df.rows key r c)
        ∧ ∀ c, c ∉ confirmedTargets df.cols targets →
            getCell r' c = getCell r c)
      df.rows (fillPhase df.rows key (confirmedTargets df.cols targets)) := by
  have hinit : List.Forall₂ (FillInv df.rows key []) df.rows df.rows :=
    List.forall₂_same.mpr fun r _ =>
      ⟨fun c hc => absurd hc (List.not_mem_nil c), fun c _ => rfl⟩
  have hphase := fillPhase_char key (confirmedTargets df.cols targets)
    df.rows [] df.rows hnd (fun c _ => List.not_mem_nil c) hinit
  rw [List.nil_append] at hphase
  refine ⟨?_, ?_, hphase⟩
  · have hpres1 : List.Forall₂ (fun r r' => ∀ c v, getCell r c = some v →
        getCell r' c = some v) df.rows
        (fillPhase df.rows key (confirmedTargets df.cols targets)) := by
      apply List.Forall₂.imp ?_ hphase
      intro r0 r1 hin c v hv
      by_cases hc : c ∈ confirmedTargets df.cols targets
      · rw [hin.1 c hc]
        unfold fillSpecCell
        rw [hv]
      · rw [hin.2 c hc]
        exact hv
    exact forall2_trans (fun a b c2 hab hbc => fun c v hv => hbc c v (hab c v hv))
      hpres1
      (stateFallback_preserves _ plantBA)
  · obtain ⟨-, -, -, hrows⟩ := fill_nans_ok_elim df key targets dn plantBA out h
    rw [hrows]
    cases dn
    · simp
    · simp only [if_true]
      exact List.filter_sublist _

/-- Witness for C5 on a concrete run. -/
theorem fill_only_touches_nulls_witness :
    fill_nans c5df "K" ["B"] false [] = Except.ok c5out
    ∧ (confirmedTargets c5df.cols ["B"]).Nodup
    ∧ (List.Forall₂ (fun r r' => ∀ c v, getCell r c = some v →
          getCell r' c = some v) c5df.rows (filledRows c5df "K" ["B"] [])
      ∧ c5out.rows.Sublist (filledRows c5df "K" ["B"] [])
      ∧ List.Forall₂ (fun r r' =>
          (∀ c ∈ confirmedTargets c5df.cols ["B"],
            getCell r' c = fillSpecCell c5df.rows "K" r c)
          ∧ ∀ c, c ∉ confirmedTargets c5df.cols ["B"] →
              getCell r' c = getCell r c)
        c5df.rows
        (fillPhase c5df.rows "K" (confirmedTargets c5df.cols ["B"]))) :=
  ⟨rfl, by decide,
    fill_only_touches_nulls c5df "K" ["B"] false [] c5out rfl (by decide)⟩

/-- C10: when the input table lacks a State column, fill_nans creates it,
fills it only through the facility-to-state fallback keyed on the eGRID_ID
cell, and appends it to the drop set, so with dropna enabled every
returned row carries a State resolved through the fallback table. -/
theorem state_created_and_fallback_filled (df : DF) (key : String)
    (targets : List String) (plantBA : List (Val × Val)) (out : DF)
    (hs : df.cols.contains "State" = false)
    (hnone : ∀ r ∈ df.rows, getCell r "State" = none)
    (h : fill_nans df key targets true plantBA = Except.ok out) :
    out.cols = df.cols ++ ["State"]
    ∧ ∀ r ∈ out.rows, ∃ g s, getCell r "eGRID_ID" = some g
        ∧ alookup plantBA g = some s ∧ getCell r "State" = some s := by
  obtain ⟨-, -, hcols, hrows⟩ :=
    fill_nans_ok_elim df key targets true plantBA out h
  simp only [hs, Bool.false_eq_true, if_false] at hcols hrows
  refine ⟨hcols, ?_⟩
  intro r hr
  rw [hrows] at hr
  simp only [if_true] at hr
  obtain ⟨hmem, hall⟩ := List.mem_filter.mp hr
  have hstate : (getCell r "State").isSome := by
    refine List.all_eq_true.mp hall "State" ?_
    unfold dropSet
    have hs2 : ¬ ("State" ∈ df.cols) := by simpa using hs
    simp [hs2]
  unfold filledRows stateFallback at hmem
  obtain ⟨r1, hr1, hfr⟩ := List.mem_map.mp hmem
  have hcs : "State" ∉ confirmedTargets df.cols targets := by
    intro hmem2
    have h3 := List.of_mem_filter hmem2
    rw [hs] at h3
    cases h3
  have hforall := fillPhase_outside key "State"
    (confirmedTargets df.cols targets) df.rows hcs
  obtain ⟨r0, hr0, heq⟩ := forall2_mem_right hforall r1 hr1
  have hr1none : getCell r1 "State" = none := heq.trans (hnone r0 hr0)
  rw [hr1none] at hfr
  simp only [Option.isSome_none, Bool.false_eq_true, if_false] at hfr
  split at hfr
  · next hg =>
    rw [← hfr] at hstate
    rw [hr1none] at hstate
    cases hstate
  · next g hg =>
    split at hfr
    · next hl =>
      rw [← hfr] at hstate
      rw [hr1none] at hstate
      cases hstate
    · next v hl =>
      refine ⟨g, v, ?_, hl, ?_⟩
      · rw [← hfr, getCell_setCell_ne _ _ _ _ (by decide)]
        exact hg
      · rw [← hfr, getCell_setCell_self]

/-- Witness for C10 on a concrete run. -/
theorem state_created_and_fallback_filled_witness :
    c10df.cols.contains "State" = false
    ∧ (∀ r ∈ c10df.rows, getCell r "State" = none)
    ∧ fill_nans c10df "FacilityID" ["eGRID_ID"] true c10pba
        = Except.ok c10out
    ∧ (c10out.cols = c10df.cols ++ ["State"]
      ∧ ∀ r ∈ c10out.rows, ∃ g s, getCell r "eGRID_ID" = some g
          ∧ alookup c10pba g = some s ∧ getCell r "State" = some s) :=
  ⟨rfl, by decide, rfl,
    state_created_and_fallback_filled c10df "FacilityID" ["eGRID_ID"]
      c10pba c10out rfl (by decide) rfl⟩

theorem qadd_eq (a b : ℚ) : qadd a b = a + b := by
  unfold qadd
  rw [Rat.mkRat_eq_div]
  have ha : ((a.den : ℚ)) ≠ 0 := by exact_mod_cast a.den_nz
  have hb : ((b.den : ℚ)) ≠ 0 := by exact_mod_cast b.den_nz
  have ha2 : (a.num : ℚ) = a * a.den := by
    have h := Rat.num_div_den a
    rw [div_eq_iff ha] at h
    exact h
  have hb2 : (b.num : ℚ) = b * b.den := by
    have h := Rat.num_div_den b
    rw [div_eq_iff hb] at h
    exact h
  push_cast
  rw [div_eq_iff (mul_ne_zero ha hb), ha2, hb2]
  ring

theorem qmul_eq (a b : ℚ) : qmul a b = a * b := by
  unfold qmul
  rw [Rat.mkRat_eq_div]
  have ha : ((a.den : ℚ)) ≠ 0 := by exact_mod_cast a.den_nz
  have hb : ((b.den : ℚ)) ≠ 0 := by exact_mod_cast b.den_nz
  have ha2 : (a.num : ℚ) = a * a.den := by
    have h := Rat.num_div_den a
    rw [div_eq_iff ha] at h
    exact h
  have hb2 : (b.num : ℚ) = b * b.den := by
    have h := Rat.num_div_den b
    rw [div_eq_iff hb] at h
    exact h
  push_cast
  rw [div_eq_iff (mul_ne_zero ha hb), ha2, hb2]
  ring

theorem qdiv_eq (a b : ℚ) : qdiv a b = a / b := by
  unfold qdiv
  have ha : ((a.den : ℚ)) ≠ 0 := by exact_mod_cast a.den_nz
  have hb : ((b.den : ℚ)) ≠ 0 := by exact_mod_cast b.den_nz
  by_cases hb0 : b = 0
  · subst hb0
    simp [Rat.mkRat_eq_div]
  · have ha2 : (a.num : ℚ) = a * a.den := by
      have h := Rat.num_div_den a
      rw [div_eq_iff ha] at h
      exact h
    have hb2 : (b.num : ℚ) = b * b.den := by
      have h := Rat.num_div_den b
      rw [div_eq_iff hb] at h
      exact h
    have hbnum : (b.num : ℚ) ≠ 0 := by
      intro hx
      apply hb0
      rw [← Rat.num_div_den b, hx, zero_div]
    split
    · next hpos =>
      rw [Rat.mkRat_eq_div]
      have ht : ((b.num.toNat : ℕ) : ℚ) = (b.num : ℚ) := by
        exact_mod_cast Int.toNat_of_nonneg hpos
      push_cast
      rw [ht, div_eq_div_iff (mul_ne_zero ha hbnum) hb0, ha2, hb2]
      ring
    · next hneg =>
      rw [Rat.mkRat_eq_div]
      have ht : (((-b.num).toNat : ℕ) : ℚ) = ((-b.num : ℤ) : ℚ) := by
        exact_mod_cast Int.toNat_of_nonneg (by omega : (0:ℤ) ≤ -b.num)
      push_cast
      rw [ht]
      push_cast
      rw [div_eq_div_iff
        (mul_ne_zero ha (neg_ne_zero.mpr hbnum)) hb0, ha2, hb2]
      ring

/-- C2 counterexample: on the concrete run, the returned table is not null
in FuelCategory on the non-Power-plant row: the Key-Fill Resolver pass
refills the nulled cell from the Power plant row of the same facility, so
the nulling does not survive fill_nans. -/
theorem construction_null_refilled :
    ¬ (∀ r ∈ rowsOf (concat_clean_upstream_and_plant c2pl c2up c2ba []
          false 50),
        getCell r "stage_code" ≠ some (Val.s (S "Power plant")) →
        getCell r "FuelCategory" = none) := by
  decide

theorem concat_clean_ok_elim (pl up : DF) (ba : BACodes)
    (pba : List (Val × Val)) (km : Bool) (mp : ℚ) (out : DF)
    (h : concat_clean_upstream_and_plant pl up ba pba km mp
      = Except.ok out) :
    ∃ d, combineStage2 pl up ba pba = Except.ok d
      ∧ d.cols.contains "PercentGenerationfromDesignatedFuelCategory" = true
      ∧ out = applyMixedPolicy km mp d := by
  unfold concat_clean_upstream_and_plant at h
  split at h
  · cases h
  · next d hd =>
    split at h
    · cases h
    · next hp =>
      injection h with h
      exact ⟨d, hd, by simpa using hp, h.symm⟩

theorem combineStage2_ok_elim (pl up : DF) (ba : BACodes)
    (pba : List (Val × Val)) (d : DF)
    (h : combineStage2 pl up ba pba = Except.ok d) :
    fill_nans (combineStage1 pl up ba) "FacilityID" [] true pba
      = Except.ok d := by
  unfold combineStage2 at h
  split at h
  · cases h
  · split at h
    · cases h
    · split at h
      · cases h
      · exact h

theorem fill_nans_dropna_complete (df : DF) (key : String)
    (targets : List String) (pba : List (Val × Val)) (out : DF)
    (h : fill_nans df key targets true pba = Except.ok out) :
    ∀ r ∈ out.rows, ∀ c ∈ dropSet df targets, (getCell r c).isSome := by
  obtain ⟨-, -, -, hrows⟩ := fill_nans_ok_elim df key targets true pba out h
  intro r hr c hc
  rw [hrows] at hr
  simp only [if_true] at hr
  exact List.all_eq_true.mp (List.mem_filter.mp hr).2 c hc

theorem mem_addColIfAbsent_self (cols : List String) (c : String) :
    c ∈ addColIfAbsent cols c := by
  unfold addColIfAbsent
  split
  · next h => simpa using h
  · exact List.mem_append_right _ (List.mem_singleton.mpr rfl)

theorem fuelcategory_mem_combineStage1 (pl up : DF) (ba : BACodes) :
    "FuelCategory" ∈ (combineStage1 pl up ba).cols :=
  mem_addColIfAbsent_self _ _

theorem fuelcategory_mem_dropSet (pl up : DF) (ba : BACodes) :
    "FuelCategory" ∈ dropSet (combineStage1 pl up ba) [] := by
  have hmem : "FuelCategory" ∈ confirmedTargets
      (combineStage1 pl up ba).cols [] := by
    unfold confirmedTargets
    rw [List.mem_filter]
    refine ⟨by decide, ?_⟩
    simpa using fuelcategory_mem_combineStage1 pl up ba
  unfold dropSet
  split
  · exact hmem
  · exact List.mem_append_left _ hmem

theorem nulling_pointwise (r : Row) :
    (getCell (constructionNull (stageNull r)) "stage_code"
        ≠ some (Val.s (S "Power plant")) →
      getCell (constructionNull (stageNull r)) "FuelCategory" = none)
    ∧ getCell (constructionNull (stageNull r)) "FuelCategory"
        ≠ some (Val.s (S "CONSTRUCTION")) := by
  unfold stageNull constructionNull
  by_cases hpp : (getCell r "stage_code"
      == some (Val.s (S "Power plant"))) = true
  · rw [if_pos hpp]
    by_cases hcon : (getCell r "FuelCategory"
        == some (Val.s (S "CONSTRUCTION"))) = true
    · rw [if_pos hcon]
      constructor
      · intro _
        exact getCell_setCell_self _ _ _
      · rw [getCell_setCell_self]
        intro hx
        cases hx
    · rw [if_neg hcon]
      constructor
      · intro hst
        exact absurd (eq_of_beq hpp) hst
      · intro hx
        apply hcon
        rw [hx]
        exact beq_self_eq_true _
  · rw [if_neg hpp]
    have hfc : getCell (setCell r "FuelCategory" none) "FuelCategory"
        = none := getCell_setCell_self _ _ _
    rw [if_neg (by rw [hfc]; intro hx; cases hx)]
    refine ⟨fun _ => hfc, ?_⟩
    rw [hfc]
    intro hx
    cases hx

/-- C2 corrected: the Combiner does null FuelCategory, before its fill
pass, on every row whose stage code is not Power plant and on every
CONSTRUCTION row (no CONSTRUCTION value survives the nulling); but the
nulling does not survive the subsequent Key-Fill Resolver pass: in the
returned table every row carries a non-null FuelCategory, the nulled
cells having been refilled from a row of the same facility (or relabeled
MIXED), and the rows that could not be refilled having been dropped by
the drop-on-incomplete pass. -/
theorem fuel_category_nulled_then_refilled (pl up : DF) (ba : BACodes)
    (pba : List (Val × Val)) (km : Bool) (mp : ℚ) (out : DF)
    (h : concat_clean_upstream_and_plant pl up ba pba km mp
      = Except.ok out) :
    (∀ r ∈ (combineStage1 pl up ba).rows,
      (getCell r "stage_code" ≠ some (Val.s (S "Power plant")) →
        getCell r "FuelCategory" = none)
      ∧ getCell r "FuelCategory" ≠ some (Val.s (S "CONSTRUCTION")))
    ∧ ∀ r ∈ out.rows, (getCell r "FuelCategory").isSome := by
  constructor
  · intro r hr
    simp only [combineStage1] at hr
    rw [List.map_map] at hr
    obtain ⟨r4, -, rfl⟩ := List.mem_map.mp hr
    exact nulling_pointwise r4
  · obtain ⟨d, hd, hp, hout⟩ :=
      concat_clean_ok_elim pl up ba pba km mp out h
    have hfill := combineStage2_ok_elim pl up ba pba d hd
    have hcomplete := fill_nans_dropna_complete _ _ _ _ _ hfill
    intro r hr
    rw [hout] at hr
    unfold applyMixedPolicy at hr
    cases hkm : km
    · rw [hkm] at hr
      simp only [Bool.false_eq_true, if_false] at hr
      exact hcomplete r (List.mem_of_mem_filter hr) "FuelCategory"
        (fuelcategory_mem_dropSet pl up ba)
    · rw [hkm] at hr
      simp only [if_true] at hr
      obtain ⟨r0, hr0, rfl⟩ := List.mem_map.mp hr
      split
      · unfold mixRelabel
        rw [getCell_setCell_ne _ _ _ _ (by decide), getCell_setCell_self]
        rfl
      · exact hcomplete r0 hr0 "FuelCategory"
          (fuelcategory_mem_dropSet pl up ba)

/-- Witness for the corrected C2 on the concrete run. -/
theorem fuel_category_nulled_then_refilled_witness :
    concat_clean_upstream_and_plant c2pl c2up c2ba [] false 50
      = Except.ok c2out
    ∧ ((∀ r ∈ (combineStage1 c2pl c2up c2ba).rows,
        (getCell r "stage_code" ≠ some (Val.s (S "Power plant")) →
          getCell r "FuelCategory" = none)
        ∧ getCell r "FuelCategory" ≠ some (Val.s (S "CONSTRUCTION")))
      ∧ ∀ r ∈ c2out.rows, (getCell r "FuelCategory").isSome) :=
  ⟨rfl, fuel_category_nulled_then_refilled c2pl c2up c2ba [] false 50
    c2out rfl⟩

/-- C8: the mixed-plant policy of the combiner.  With the intermediate
table d of the fill pass: when keep-mixed is unset the returned rows are
exactly the rows of d not below the threshold (a below-threshold row is
entirely absent); when keep-mixed is set the returned rows are the rows
of d with every below-threshold row relabeled, the relabeling setting
FuelCategory to MIXED and PrimaryFuel to Mixed Fuel Type; a row at or
above the threshold is left unchanged by the policy. -/
theorem mixed_policy_threshold (pl up : DF) (ba : BACodes)
    (pba : List (Val × Val)) (km : Bool) (mp : ℚ) (d out : DF)
    (h2 : combineStage2 pl up ba pba = Except.ok d)
    (hp : d.cols.contains "PercentGenerationfromDesignatedFuelCategory"
      = true)
    (h : concat_clean_upstream_and_plant pl up ba pba km mp
      = Except.ok out) :
    (km = false → out.rows = d.rows.filter fun r => !(belowThreshold mp r))
    ∧ (km = true → out.rows = d.rows.map fun r =>
        if belowThreshold mp r then mixRelabel r else r)
    ∧ (∀ r, belowThreshold mp r = true →
        getCell (mixRelabel r) "FuelCategory" = some (Val.s (S "MIXED"))
        ∧ getCell (mixRelabel r) "PrimaryFuel"
            = some (Val.s (S "Mixed Fuel Type")))
    ∧ ∀ r, belowThreshold mp r = false →
        (if belowThreshold mp r then mixRelabel r else r) = r := by
  have hout : out = applyMixedPolicy km mp d := by
    unfold concat_clean_upstream_and_plant at h
    rw [h2] at h
    simp only [hp, Bool.not_true, Bool.false_eq_true, if_false] at h
    injection h with h
    exact h.symm
  refine ⟨?_, ?_, ?_, ?_⟩
  · intro hkm
    rw [hout, hkm]
    rfl
  · intro hkm
    rw [hout, hkm]
    rfl
  · intro r _
    unfold mixRelabel
    constructor
    · rw [getCell_setCell_ne _ _ _ _ (by decide), getCell_setCell_self]
    · rw [getCell_setCell_self]
  · intro r hb
    rw [hb]
    simp

/-- Witness for C8 on the concrete run. -/
theorem mixed_policy_threshold_witness :
    combineStage2 c8pl c2up c2ba [] = Except.ok c8d
    ∧ c8d.cols.contains "PercentGenerationfromDesignatedFuelCategory"
        = true
    ∧ concat_clean_upstream_and_plant c8pl c2up c2ba [] true 50
        = Except.ok c8out
    ∧ ((true = false → c8out.rows
          = c8d.rows.filter fun r => !(belowThreshold 50 r))
      ∧ (true = true → c8out.rows = c8d.rows.map fun r =>
          if belowThreshold 50 r then mixRelabel r else r)
      ∧ (∀ r, belowThreshold 50 r = true →
          getCell (mixRelabel r) "FuelCategory" = some (Val.s (S "MIXED"))
          ∧ getCell (mixRelabel r) "PrimaryFuel"
              = some (Val.s (S "Mixed Fuel Type")))
      ∧ ∀ r, belowThreshold 50 r = false →
          (if belowThreshold 50 r then mixRelabel r else r) = r) :=
  ⟨rfl, rfl, rfl,
    mixed_policy_threshold c8pl c2up c2ba [] true 50 c8d c8out
      rfl rfl rfl⟩

theorem gupd_key (g : GAcc) (r : Row) : (gupd g r).key = g.key := rfl

theorem ginit_key (k : List Val) (r : Row) : (ginit k r).key = k := rfl

theorem gfind_ginsert (k k' : List Val) (r : Row) :
    ∀ acc, gfind (ginsert acc k' r) k
      = if k = k' then gstepOpt k' (gfind acc k') r else gfind acc k := by
  intro acc
  induction acc with
  | nil =>
    by_cases h : k = k'
    · subst h
      simp [ginsert, gfind, gstepOpt, ginit_key]
    · have hk2 : k' ≠ k := fun hh => h hh.symm
      simp [ginsert, gfind, gstepOpt, h, hk2, ginit_key]
  | cons g gs ih =>
    by_cases hg : g.key = k'
    · by_cases h : k = k'
      · subst h
        simp [ginsert, gfind, hg, gstepOpt, gupd_key]
      · have hgk : g.key ≠ k := fun hh => h (hh.symm.trans hg)
        have hk2 : k' ≠ k := fun hh => h hh.symm
        simp [ginsert, gfind, hg, h, gstepOpt, gupd_key, hgk, hk2]
    · by_cases hgk : g.key = k
      · have hkk : k ≠ k' := fun hh => hg (hgk.trans hh)
        simp [ginsert, gfind, hg, hgk, hkk]
      · simp [ginsert, gfind, hg, hgk, ih]

theorem gfind_foldl (rows : List Row) : ∀ (acc : List GAcc) (k : List Val),
    gfind (rows.foldl gstep acc) k
      = (rows.filter fun r => keyOf groupbyCols r == some k).foldl
          (gstepOpt k) (gfind acc k) := by
  induction rows with
  | nil => intro acc k; rfl
  | cons r rest ih =>
    intro acc k
    show gfind (rest.foldl gstep (gstep acc r)) k = _
    rw [ih]
    cases hk : keyOf groupbyCols r with
    | none =>
      rw [show gstep acc r = acc from by unfold gstep; rw [hk]]
      rw [List.filter_cons_of_neg (by simp [hk])]
    | some k0 =>
      rw [show gstep acc r = ginsert acc k0 r from by unfold gstep; rw [hk]]
      by_cases hkk : k = k0
      · subst hkk
        rw [List.filter_cons_of_pos (by simp [hk]), List.foldl_cons,
          gfind_ginsert, if_pos rfl]
      · rw [List.filter_cons_of_neg (by simp [hk]; exact fun hh => hkk hh.symm),
          gfind_ginsert, if_neg hkk]

theorem foldl_gstepOpt_some (k : List Val) (ms : List Row) :
    ∀ g0, ms.foldl (gstepOpt k) (some g0) = some (ms.foldl gupd g0) := by
  induction ms with
  | nil => intro g0; rfl
  | cons r rest ih => intro g0; exact ih (gupd g0 r)

theorem foldl_gupd_key (ms : List Row) :
    ∀ g0, (ms.foldl gupd g0).key = g0.key := by
  induction ms with
  | nil => intro g0; rfl
  | cons r rest ih =>
    intro g0
    rw [List.foldl_cons, ih, gupd_key]

theorem foldl_gupd_sumA (ms : List Row) :
    ∀ g0, (ms.foldl gupd g0).sumA
      = g0.sumA + (ms.map fun r => (cellQ r "FlowAmount").getD 0).sum := by
  induction ms with
  | nil => intro g0; simp
  | cons r rest ih =>
    intro g0
    rw [List.foldl_cons, ih, List.map_cons, List.sum_cons]
    rw [show (gupd g0 r).sumA
      = qadd g0.sumA ((cellQ r "FlowAmount").getD 0) from rfl, qadd_eq]
    ring

theorem foldl_gupd_sumQ (ms : List Row) :
    ∀ g0, (ms.foldl gupd g0).sumQ
      = g0.sumQ + (ms.map fun r => (cellQ r "quantity").getD 0).sum := by
  induction ms with
  | nil => intro g0; simp
  | cons r rest ih =>
    intro g0
    rw [List.foldl_cons, ih, List.map_cons, List.sum_cons]
    rw [show (gupd g0 r).sumQ
      = qadd g0.sumQ ((cellQ r "quantity").getD 0) from rfl, qadd_eq]
    ring

theorem foldl_gupd_cntQ (ms : List Row) :
    ∀ g0, (ms.foldl gupd g0).cntQ
      = g0.cntQ + (ms.countP fun r => (cellQ r "quantity").isSome) := by
  induction ms with
  | nil => intro g0; simp
  | cons r rest ih =>
    intro g0
    rw [List.foldl_cons, ih, List.countP_cons]
    rw [show (gupd g0 r).cntQ
      = g0.cntQ + (if (cellQ r "quantity").isSome then 1 else 0) from rfl]
    by_cases h : (cellQ r "quantity").isSome
    · simp [h]
      omega
    · simp [h]

theorem keyOf_length : ∀ (cols : List String) (r : Row) (k : List Val),
    keyOf cols r = some k → k.length = cols.length := by
  intro cols
  induction cols with
  | nil =>
    intro r k h
    unfold keyOf at h
    injection h with h
    rw [← h]
    rfl
  | cons c cs ih =>
    intro r k h
    unfold keyOf at h
    cases hc : getCell r c with
    | none => rw [hc] at h; cases h
    | some v =>
      rw [hc] at h
      cases hcs : keyOf cs r with
      | none => rw [hcs] at h; cases h
      | some vs =>
        rw [hcs] at h
        injection h with h
        rw [← h]
        simp [ih r vs hcs]

theorem ginsert_keys_mem (k : List Val) (r : Row) (k2 : List Val) :
    ∀ acc, k2 ∈ (ginsert acc k r).map GAcc.key ↔
      k2 ∈ acc.map GAcc.key ∨ k2 = k := by
  intro acc
  induction acc with
  | nil => simp [ginsert, ginit_key, eq_comm]
  | cons g gs ih =>
    by_cases hg : g.key = k
    · subst hg
      simp [ginsert, gupd_key]
      tauto
    · simp [ginsert, hg, ih, or_assoc]

theorem accok_ginsert (k : List Val) (r : Row)
    (hlen : k.length = groupbyCols.length) :
    ∀ acc, AccOK acc → AccOK (ginsert acc k r) := by
  intro acc
  induction acc with
  | nil =>
    intro _
    rw [show ginsert [] k r = [ginit k r] from rfl]
    exact ⟨List.nodup_singleton _, by
      intro g hg
      rw [List.mem_singleton] at hg
      subst hg
      exact hlen⟩
  | cons g gs ih =>
    intro ⟨hnd, hlens⟩
    by_cases hg : g.key = k
    · rw [show ginsert (g :: gs) k r = gupd g r :: gs from by
        simp only [ginsert]; rw [if_pos hg]]
      constructor
      · simpa [gupd_key] using hnd
      · intro g2 hg2
        rcases List.mem_cons.mp hg2 with h2 | h2
        · subst h2
          rw [gupd_key]
          exact hlens g (List.mem_cons_self _ _)
        · exact hlens g2 (List.mem_cons_of_mem _ h2)
    · rw [show ginsert (g :: gs) k r = g :: ginsert gs k r from by
        simp only [ginsert]; rw [if_neg hg]]
      obtain ⟨hnd2, hlens2⟩ := ih ⟨(List.nodup_cons.mp hnd).2,
        fun g2 hg2 => hlens g2 (List.mem_cons_of_mem _ hg2)⟩
      constructor
      · rw [List.map_cons, List.nodup_cons]
        refine ⟨?_, hnd2⟩
        intro hmem
        rcases (ginsert_keys_mem k r g.key gs).mp hmem with h2 | h2
        · exact (List.nodup_cons.mp hnd).1 h2
        · exact hg h2
      · intro g2 hg2
        rcases List.mem_cons.mp hg2 with h2 | h2
        · rw [h2]
          exact hlens g (List.mem_cons_self _ _)
        · exact hlens2 g2 h2

theorem accok_foldl (rows : List Row) :
    ∀ acc, AccOK acc → AccOK (rows.foldl gstep acc) := by
  induction rows with
  | nil => intro acc h; exact h
  | cons r rest ih =>
    intro acc h
    apply ih
    unfold gstep
    cases hk : keyOf groupbyCols r with
    | none => exact h
    | some k => exact accok_ginsert k r (keyOf_length _ _ _ hk) acc h

theorem gfind_filter (k : List Val) (g : GAcc) :
    ∀ acc, (acc.map GAcc.key).Nodup → gfind acc k = some g →
      acc.filter (fun g2 => g2.key == k) = [g] := by
  intro acc
  induction acc with
  | nil => intro _ h; cases h
  | cons g0 gs ih =>
    intro hnd h
    unfold gfind at h
    by_cases hg0 : g0.key = k
    · rw [if_pos hg0] at h
      injection h with h
      subst h
      rw [List.filter_cons_of_pos (by simp [hg0])]
      have hnil : gs.filter (fun g2 => g2.key == k) = [] := by
        rw [List.filter_eq_nil_iff]
        intro g2 hg2 hp
        have hk2 : g2.key = k := by simpa using hp
        have hmem : g0.key ∈ gs.map GAcc.key := by
          rw [hg0, ← hk2]
          exact List.mem_map_of_mem _ hg2
        exact (List.nodup_cons.mp (by simpa using hnd)).1 hmem
      rw [hnil]
    · rw [if_neg hg0] at h
      rw [List.filter_cons_of_neg (by simp [hg0])]
      exact ih (List.nodup_cons.mp (by simpa using hnd)).2 h

theorem insertSortedG_perm (g : GAcc) :
    ∀ l, (insertSortedG g l).Perm (g :: l) := by
  intro l
  induction l with
  | nil => exact List.Perm.refl _
  | cons h t ih =>
    unfold insertSortedG
    split
    · exact List.Perm.refl _
    · exact (List.Perm.cons h ih).trans (List.Perm.swap g h t)

theorem sortG_perm : ∀ l, (sortG l).Perm l := by
  intro l
  induction l with
  | nil => exact List.Perm.refl _
  | cons g gs ih =>
    exact (insertSortedG_perm g (sortG gs)).trans (List.Perm.cons g ih)

theorem alookup_cons_pos {α β : Type} [DecidableEq α] (a : α) (b : β)
    (t : List (α × β)) (c : α) (h : c = a) :
    alookup ((a, b) :: t) c = some b := by
  unfold alookup
  rw [if_pos h]

theorem alookup_cons_neg {α β : Type} [DecidableEq α] (a : α) (b : β)
    (t : List (α × β)) (c : α) (h : ¬ c = a) :
    alookup ((a, b) :: t) c = alookup t c := by
  unfold alookup
  rw [if_neg h]
  cases t with
  | nil => rfl
  | cons p rest => rfl

theorem alookup_append {α β : Type} [DecidableEq α]
    (l1 l2 : List (α × β)) (c : α) :
    alookup (l1 ++ l2) c
      = match alookup l1 c with
        | some v => some v
        | none => alookup l2 c := by
  induction l1 with
  | nil => rfl
  | cons p t ih =>
    obtain ⟨a, b⟩ := p
    show alookup ((a, b) :: (t ++ l2)) c = _
    by_cases h : c = a
    · rw [alookup_cons_pos a b (t ++ l2) c h, alookup_cons_pos a b t c h]
    · rw [alookup_cons_neg a b (t ++ l2) c h, alookup_cons_neg a b t c h]
      exact ih

theorem keyOf_cons_ne (p : String × Option Val) :
    ∀ (cs : List String) (r : Row), p.1 ∉ cs →
      keyOf cs (p :: r) = keyOf cs r := by
  intro cs
  induction cs with
  | nil => intro r _; rfl
  | cons c ct ih =>
    intro r h
    have hc : c ≠ p.1 := fun hh =>
      h (hh ▸ List.mem_cons_self c ct)
    unfold keyOf
    rw [show getCell (p :: r) c = getCell r c from
      getCell_setCell_ne r p.1 c p.2 hc]
    rw [ih r fun hh => h (List.mem_cons_of_mem _ hh)]

theorem keyOf_zip : ∀ (cols : List String) (ks : List Val) (rest : Row),
    cols.Nodup → ks.length = cols.length →
    keyOf cols ((cols.zip (ks.map some)) ++ rest) = some ks := by
  intro cols
  induction cols with
  | nil =>
    intro ks rest _ hlen
    cases ks with
    | nil => rfl
    | cons v vs => simp at hlen
  | cons c cs ih =>
    intro ks rest hnd hlen
    cases ks with
    | nil => simp at hlen
    | cons v vs =>
      show keyOf (c :: cs) (((c, some v) :: cs.zip (vs.map some)) ++ rest)
        = some (v :: vs)
      rw [List.cons_append]
      unfold keyOf
      rw [show getCell ((c, some v) :: (cs.zip (vs.map some) ++ rest)) c
        = some v from getCell_setCell_self _ _ _]
      rw [keyOf_cons_ne (c, some v) cs _ (List.nodup_cons.mp hnd).1]
      rw [ih vs rest (List.nodup_cons.mp hnd).2 (by simpa using hlen)]

theorem zip_keys_alookup_none (c : String) :
    ∀ (cols : List String) (ks : List (Option Val)), c ∉ cols →
      alookup (cols.zip ks) c = none := by
  intro cols
  induction cols with
  | nil => intro ks _; rfl
  | cons c0 ct ih =>
    intro ks h
    cases ks with
    | nil => rfl
    | cons v vt =>
      rw [show (c0 :: ct).zip (v :: vt) = (c0, v) :: ct.zip vt from rfl]
      rw [alookup_cons_neg c0 v _ c
        (fun hh => h (hh ▸ List.mem_cons_self c0 ct))]
      exact ih vt fun hh => h (List.mem_cons_of_mem _ hh)

theorem renderG_keyOf (hasE : Bool) (g : GAcc)
    (hlen : g.key.length = groupbyCols.length) :
    keyOf groupbyCols (renderG hasE g) = some g.key := by
  unfold renderG
  rw [List.append_assoc]
  exact keyOf_zip groupbyCols g.key _ (by decide) hlen

theorem renderG_amount (hasE : Bool) (g : GAcc) :
    getCell (renderG hasE g) "FlowAmount" = some (Val.q g.sumA) := by
  unfold renderG getCell
  rw [List.append_assoc, alookup_append]
  rw [zip_keys_alookup_none _ groupbyCols _ (by decide)]
  rw [List.cons_append, alookup_cons_pos _ _ _ _ rfl]

theorem renderG_quantity (hasE : Bool) (g : GAcc) :
    getCell (renderG hasE g) "quantity"
      = if g.cntQ = 0 then none
        else some (Val.q (qdiv g.sumQ (mkRat g.cntQ 1))) := by
  unfold renderG getCell
  rw [List.append_assoc, alookup_append]
  rw [zip_keys_alookup_none _ groupbyCols _ (by decide)]
  rw [show alookup ([("FlowAmount", some (Val.q g.sumA)),
      ("quantity", if g.cntQ = 0 then none
        else some (Val.q (qdiv g.sumQ (mkRat g.cntQ 1))))]
      ++ (if hasE then [("Electricity", if g.cntE = 0 then none
        else some (Val.q (qdiv g.sumE (mkRat g.cntE 1))))] else []))
      "quantity"
    = some (if g.cntQ = 0 then none
        else some (Val.q (qdiv g.sumQ (mkRat g.cntQ 1)))) from by
    rw [List.cons_append, alookup_cons_neg _ _ _ _ (by decide),
      List.cons_append, alookup_cons_pos _ _ _ _ rfl]]

theorem filter_map_own {α β : Type} (f : α → β) (p : β → Bool) :
    ∀ l : List α, (l.map f).filter p = (l.filter fun a => p (f a)).map f := by
  intro l
  induction l with
  | nil => rfl
  | cons a t ih =>
    by_cases h : p (f a)
    · simp [List.filter_cons, h, ih]
    · simp [List.filter_cons, h, ih]

/-- C4: the grouping of the upstream flow mapper is amount-additive.  For
every grouping key realised by at least one pre-group row whose
FlowAmount and quantity cells are numeric, the grouped table has exactly
one row for that key; its FlowAmount is the sum of FlowAmount over all
pre-group rows sharing the key, and its quantity is their quantity mean. -/
theorem grouping_amount_additive (hasE : Bool) (rows : List Row)
    (k : List Val)
    (hne : matchingRows rows k ≠ [])
    (hA : ∀ r ∈ matchingRows rows k, (cellQ r "FlowAmount").isSome)
    (hQ : ∀ r ∈ matchingRows rows k, (cellQ r "quantity").isSome) :
    ∃ g, (mapperGroup hasE rows).filter
        (fun r => keyOf groupbyCols r == some k) = [g]
      ∧ getCell g "FlowAmount" = some (Val.q
          (((matchingRows rows k).map
            fun r => (cellQ r "FlowAmount").getD 0).sum))
      ∧ getCell g "quantity" = some (Val.q
          ((((matchingRows rows k).map
              fun r => (cellQ r "quantity").getD 0).sum)
            / ((matchingRows rows k).length : ℚ))) := by
  have hacc : AccOK (rows.foldl gstep []) :=
    accok_foldl rows [] ⟨List.nodup_nil, by intro g hg; cases hg⟩
  have hfold := gfind_foldl rows [] k
  cases hmm : matchingRows rows k with
  | nil => exact absurd hmm hne
  | cons m0 ms =>
    have hfold2 : gfind (rows.foldl gstep []) k
        = some (ms.foldl gupd (ginit k m0)) := by
      rw [hfold]
      show (matchingRows rows k).foldl (gstepOpt k) none = _
      rw [hmm, List.foldl_cons]
      exact foldl_gstepOpt_some k ms (ginit k m0)
    have hkey : (ms.foldl gupd (ginit k m0)).key = k := by
      rw [foldl_gupd_key]
      rfl
    have hfilter := gfind_filter k (ms.foldl gupd (ginit k m0))
      (rows.foldl gstep []) hacc.1 hfold2
    have hlen_all : ∀ g2 ∈ sortG (rows.foldl gstep []),
        g2.key.length = groupbyCols.length := by
      intro g2 hg2
      exact hacc.2 g2 ((sortG_perm _).mem_iff.mp hg2)
    have h1 : (mapperGroup hasE rows).filter
        (fun r => keyOf groupbyCols r == some k)
        = ((sortG (rows.foldl gstep [])).filter fun g2 =>
            keyOf groupbyCols (renderG hasE g2) == some k).map
          (renderG hasE) := by
      unfold mapperGroup
      exact filter_map_own (renderG hasE) _ _
    have h2 : ((sortG (rows.foldl gstep [])).filter fun g2 =>
          keyOf groupbyCols (renderG hasE g2) == some k)
        = (sortG (rows.foldl gstep [])).filter fun g2 => g2.key == k := by
      apply List.filter_congr
      intro g2 hg2
      rw [renderG_keyOf hasE g2 (hlen_all g2 hg2)]
      by_cases hk2 : g2.key = k
      · simp [hk2]
      · simp [hk2]
    have h3 : (sortG (rows.foldl gstep [])).filter
        (fun g2 => g2.key == k) = [ms.foldl gupd (ginit k m0)] := by
      have hperm := (sortG_perm (rows.foldl gstep [])).filter
        (fun g2 => g2.key == k)
      rw [hfilter] at hperm
      exact List.perm_singleton.mp hperm
    have hm0 : m0 ∈ matchingRows rows k := by
      rw [hmm]
      exact List.mem_cons_self _ _
    have hms : ∀ r ∈ ms, r ∈ matchingRows rows k := by
      intro r hr
      rw [hmm]
      exact List.mem_cons_of_mem _ hr
    refine ⟨renderG hasE (ms.foldl gupd (ginit k m0)), ?_, ?_, ?_⟩
    · rw [h1, h2, h3]
      rfl
    · rw [renderG_amount]
      have hsum : (ms.foldl gupd (ginit k m0)).sumA
          = ((m0 :: ms).map fun r => (cellQ r "FlowAmount").getD 0).sum := by
        rw [foldl_gupd_sumA, List.map_cons, List.sum_cons]
        rfl
      rw [hsum]
    · rw [renderG_quantity]
      have hcnt : (ms.foldl gupd (ginit k m0)).cntQ = (m0 :: ms).length := by
        rw [foldl_gupd_cntQ]
        have hcnt0 : (ginit k m0).cntQ = 1 := by
          show (if (cellQ m0 "quantity").isSome then 1 else 0) = 1
          rw [if_pos (hQ m0 hm0)]
        rw [hcnt0, List.countP_eq_length.mpr]
        · rw [List.length_cons]
          omega
        · intro r hr
          exact hQ r (hms r hr)
      have hsum : (ms.foldl gupd (ginit k m0)).sumQ
          = ((m0 :: ms).map fun r => (cellQ r "quantity").getD 0).sum := by
        rw [foldl_gupd_sumQ, List.map_cons, List.sum_cons]
        rfl
      rw [if_neg (by rw [hcnt]; simp)]
      rw [qdiv_eq, hsum, hcnt]
      rw [Rat.mkRat_eq_div]
      push_cast
      rw [div_one]

/-- Witness for C4 on a concrete grouping run. -/
theorem grouping_amount_additive_witness :
    matchingRows [c4row1, c4row2] c4k ≠ []
    ∧ (∀ r ∈ matchingRows [c4row1, c4row2] c4k,
        (cellQ r "FlowAmount").isSome)
    ∧ (∀ r ∈ matchingRows [c4row1, c4row2] c4k,
        (cellQ r "quantity").isSome)
    ∧ ∃ g, (mapperGroup false [c4row1, c4row2]).filter
        (fun r => keyOf groupbyCols r == some c4k) = [g]
      ∧ getCell g "FlowAmount" = some (Val.q
          (((matchingRows [c4row1, c4row2] c4k).map
            fun r => (cellQ r "FlowAmount").getD 0).sum))
      ∧ getCell g "quantity" = some (Val.q
          ((((matchingRows [c4row1, c4row2] c4k).map
              fun r => (cellQ r "quantity").getD 0).sum)
            / ((matchingRows [c4row1, c4row2] c4k).length : ℚ))) :=
  ⟨by decide, by decide, by decide,
    grouping_amount_additive false [c4row1, c4row2] c4k
      (by decide) (by decide) (by decide)⟩

/-- C3 evaluated at the concrete run (the code_bug evidence): the
unmatched-flows list returned in diagnostics mode contains the CO2 pair
even though CO2 was mapped, as the matched list shows, because the set
difference subtracts 6-tuples from 2-tuples and therefore removes
nothing. -/
theorem unmatched_list_contains_matched_pair :
    (concat_map_upstream_databases [c3df] c3fm (Val.q 2016)
        (some (S "g"))).unmatched
      = some [[Val.s (S "CO2"), Val.s (S "emission/air")],
              [Val.s (S "XYZ"), Val.s (S "emission/air")]]
    ∧ (concat_map_upstream_databases [c3df] c3fm (Val.q 2016)
        (some (S "g"))).matched
      = some [[Val.s (S "CO2"), Val.s (S "emission/air"), Val.s (S "kg"),
               Val.s (S "Carbon dioxide"), Val.s (S "emission/air"),
               Val.s (S "kg")]] := by
  constructor
  · rfl
  · rfl

/-- Witness for C9: a whitespace-only category path. -/
theorem blank_category_tolerated_witness :
    ((⟨PyVal.str (S "x"), PyVal.str (S "  "), []⟩ : ProcDict).category
        = PyVal.null
      ∨ ∃ p, (⟨PyVal.str (S "x"), PyVal.str (S "  "), []⟩ : ProcDict).category
          = PyVal.str p ∧ pyStrip p = [])
    ∧ ((writeOne { created := [], records := [] }
        ⟨PyVal.str (S "x"), PyVal.str (S "  "), []⟩).records
      = [] ++ [Record.proc
          { id := processIdOf ⟨PyVal.str (S "x"), PyVal.str (S "  "), []⟩,
            name := PyVal.str (S "x"), category := none, exchanges := [] }]
      ∧ (writeOne { created := [], records := [] }
          ⟨PyVal.str (S "x"), PyVal.str (S "  "), []⟩).created = []) :=
  ⟨Or.inr ⟨S "  ", rfl, by decide⟩,
    blank_category_tolerated { created := [], records := [] }
      ⟨PyVal.str (S "x"), PyVal.str (S "  "), []⟩
      (Or.inr ⟨S "  ", rfl, by decide⟩)⟩

end ELCI

